import Mathlib

/-!
Verification of the document discovery-and-deduplication pipeline of the
payroll-compliance-agent repository, against its natural-language
specification.  The Python sources (`audit.py`, `agent.py`,
`calude_audit.py`, `payroll_news_monitor.py`) are shallowly embedded:
text is `String` / `List Char`, Python floats become `ℚ`, the SQLite
`documents` table becomes a list of rows, and the regular expressions of
`Patterns` become executable nondeterministic matchers with regex
existence semantics (a search succeeds iff some decomposition matches).
Non-ASCII case folding is approximated by ASCII case folding, as every
pattern and keyword in the source is ASCII.
-/

/-! ## Basic character and list-of-char helpers (Python string semantics) -/

/-- ASCII whitespace as recognised by Python's `str.split` / `\s`
(space, tab, newline, carriage return, vertical tab, form feed). -/
def pySpace (c : Char) : Bool :=
  c = ' ' || c = '\t' || c = '\n' || c = '\r' || c = '\x0b' || c = '\x0c'

/-- ASCII lower-casing of a character list (Python `str.lower`, restricted
to ASCII, which covers every pattern and keyword in the source). -/
def lowerL (s : List Char) : List Char := s.map Char.toLower

/-- Split a character list into maximal whitespace-free words, dropping
whitespace runs – Python `str.split()` with no separator argument. -/
def splitWsAux (cur : List Char) (acc : List (List Char)) : List Char → List (List Char)
  | [] => if cur = [] then acc.reverse else (cur.reverse :: acc).reverse
  | c :: t =>
    if pySpace c then
      if cur = [] then splitWsAux [] acc t else splitWsAux [] (cur.reverse :: acc) t
    else splitWsAux (c :: cur) acc t

/-- Python `str.split()` (split on whitespace runs, no empty words). -/
def splitWs (s : List Char) : List (List Char) := splitWsAux [] [] s

/-- Join words with single spaces – Python `' '.join(words)`. -/
def joinSpace : List (List Char) → List Char
  | [] => []
  | [w] => w
  | w :: ws => w ++ ' ' :: joinSpace ws

/-- Python `' '.join(text.lower().strip().split())` from
`Filters.is_navigation_junk`. -/
def pyNormalize (text : String) : List Char := joinSpace (splitWs (lowerL text.toList))

/-- Python `str.strip()` (strip leading and trailing whitespace). -/
def pyStrip (s : List Char) : List Char :=
  ((s.dropWhile pySpace).reverse.dropWhile pySpace).reverse

/-- `pat` occurs as a contiguous substring of `hay` – Python `pat in hay`. -/
def containsSub (hay pat : List Char) : Bool :=
  pat.isPrefixOf hay ||
    match hay with
    | [] => false
    | _ :: t => containsSub t pat

/-! ## Nondeterministic anchored matchers

A matcher of type `M` consumes characters at the start of its input and
returns the list of possible remainders; a regex `re.search` over a
pattern succeeds iff at some position of the text its matcher yields at
least one remainder.  This gives exactly the existence semantics of a
backtracking regex search. -/

/-- Anchored matcher: possible remainders after consuming a match. -/
abbrev M := List Char → List (List Char)

/-- Sequencing of matchers (regex concatenation). -/
def mseq (a b : M) : M := fun s => (a s).flatMap b

/-- Alternation of matchers (regex `|`). -/
def malt (a b : M) : M := fun s => a s ++ b s

/-- Single character satisfying a predicate (regex character class). -/
def mchar (p : Char → Bool) : M := fun s =>
  match s with
  | [] => []
  | c :: t => if p c then [t] else []

/-- Literal string (regex literal). -/
def mlit (lit : List Char) : M := fun s =>
  if lit.isPrefixOf s then [s.drop lit.length] else []

/-- Optional matcher (regex `?`). -/
def mopt (a : M) : M := fun s => s :: a s

/-- One or more characters satisfying `p` (regex `p+` on a class):
all remainders after consuming between one character and the whole run. -/
def many1 (p : Char → Bool) : M
  | [] => []
  | c :: t => if p c then t :: many1 p t else []

/-- Zero or more characters satisfying `p` (regex `p*` on a class). -/
def mstar (p : Char → Bool) : M := fun s => s :: many1 p s

/-- Exactly `n` characters satisfying `p` (regex `p{n}`). -/
def mexact (p : Char → Bool) : Nat → M
  | 0 => fun s => [s]
  | n + 1 => fun s => (mchar p s).flatMap (mexact p n)

/-- Between `lo` and `hi` characters satisfying `p` (regex `p{lo,hi}`). -/
def mrange (p : Char → Bool) (lo hi : Nat) : M := fun s =>
  (List.range' lo (hi - lo + 1)).flatMap (fun n => mexact p n s)

/-- A matcher succeeds anchored at the start of `s`. -/
def msome (a : M) (s : List Char) : Bool := !(a s).isEmpty

/-- The matcher succeeds at some position (regex `re.search`). -/
def searchAny (a : M) : List Char → Bool
  | [] => msome a []
  | c :: t => msome a (c :: t) || searchAny a t

/-- `re.search` for a pattern needing the character before the match
(for a leading `\b` word boundary): the anchored predicate receives the
previous character (`none` at the start of the text) and the remainder. -/
def searchPrev (m : Option Char → List Char → Bool) : Option Char → List Char → Bool
  | prev, [] => m prev []
  | prev, c :: t => m prev (c :: t) || searchPrev m (some c) t

/-- Regex `\w` (ASCII approximation: letter, digit or underscore). -/
def wordChar (c : Char) : Bool := c.isAlpha || c.isDigit || c = '_'

/-- Word boundary before a word character: previous char absent or non-word. -/
def boundaryBefore : Option Char → Bool
  | none => true
  | some c => !wordChar c

/-- Word boundary after a word character: remainder empty or non-word head. -/
def boundaryAfter (rem : List Char) : Bool :=
  match rem with
  | [] => true
  | c :: _ => !wordChar c

/-! ## Pattern matching (`Patterns` in audit.py)

Each pre-compiled regex of `class Patterns` is embedded as an executable
matcher with regex existence semantics.  Case-insensitive patterns are run
on the lower-cased text with lower-case literals, which is equivalent for
the ASCII patterns of the source. -/

/-- Alternation over a list of matchers. -/
def maltL (ms : List M) : M := fun s => ms.flatMap (fun m => m s)

/-- Sequencing of a list of matchers. -/
def mseqs (ms : List M) : M := ms.foldr mseq (fun s => [s])

/-- Alternation over literal words. -/
def mwords (ws : List String) : M := maltL (ws.map (fun w => mlit w.toList))

/-- Regex class `[.∕-]`. -/
def sepDotSlashDash : M := mchar (fun c => c = '.' || c = '/' || c = '-')

/-- Regex class `[∕-]`. -/
def sepSlashDash : M := mchar (fun c => c = '/' || c = '-')

/-- Regex `\d{1,2}`. -/
def d12 : M := mrange Char.isDigit 1 2

/-- Regex `20\d{2}` (a year 20xx). -/
def y20 : M := mseq (mlit "20".toList) (mexact Char.isDigit 2)

/-- Regex `\s*`. -/
def ws0 : M := mstar pySpace

/-- Regex `\s+`. -/
def ws1 : M := many1 pySpace

/-- The twelve month names (lower-cased, for the case-insensitive patterns). -/
def monthWords : List String :=
  ["january", "february", "march", "april", "may", "june", "july",
   "august", "september", "october", "november", "december"]

/-- `Patterns.DATES[0]`: `(\d{1,2})[.∕-](\d{1,2})[.∕-](20\d{2})`. -/
def dateP1 : M := mseqs [d12, sepDotSlashDash, d12, sepDotSlashDash, y20]

/-- `Patterns.DATES[1]`: `(20\d{2})[.∕-](\d{1,2})[.∕-](\d{1,2})`. -/
def dateP2 : M := mseqs [y20, sepDotSlashDash, d12, sepDotSlashDash, d12]

/-- `Patterns.DATES[2]`: `(Month)\s+(\d{1,2}),?\s+(20\d{2})`, case-insensitive. -/
def dateP3 : M :=
  mseqs [mwords monthWords, ws1, d12, mopt (mchar (fun c => c = ',')), ws1, y20]

/-- `Patterns.DATES[3]`: `(\d{1,2})\s+(Month),?\s+(20\d{2})`, case-insensitive. -/
def dateP4 : M :=
  mseqs [d12, ws1, mwords monthWords, mopt (mchar (fun c => c = ',')), ws1, y20]

/-- `Patterns.DATES[4]`: `dated?\s*:?\s*(\d{1,2}[.∕-]\d{1,2}[.∕-]20\d{2})`,
case-insensitive. -/
def dateP5 : M :=
  mseqs [mlit "date".toList, mopt (mchar (fun c => c = 'd')), ws0,
         mopt (mchar (fun c => c = ':')), ws0,
         d12, sepDotSlashDash, d12, sepDotSlashDash, y20]

/-- `re.search` over all five `Patterns.DATES` patterns. -/
def hasDateMatch (text : List Char) : Bool :=
  let tl := lowerL text
  searchAny dateP1 tl || searchAny dateP2 tl || searchAny dateP3 tl ||
    searchAny dateP4 tl || searchAny dateP5 tl

/-- Regex class `[\w.∕-]`. -/
def wordDotSlashDash (c : Char) : Bool := wordChar c || c = '.' || c = '/' || c = '-'

/-- Regex `\.?` (an optional literal dot). -/
def optDot : M := mopt (mchar (fun c => c = '.'))

/-- `Patterns.DOC_IDS[0]`:
`(?:circular|notification|order|memo|advisory|resolution)\s*(?:no\.?|number|#)\s*([\w.∕-]+)`,
case-insensitive. -/
def docIdP1 : M :=
  mseqs [mwords ["circular", "notification", "order", "memo", "advisory", "resolution"],
         ws0,
         malt (mseqs [mlit "no".toList, optDot]) (mwords ["number", "#"]),
         ws0, many1 wordDotSlashDash]

/-- `Patterns.DOC_IDS[1]`: `(?:RMC|RMO|RR|DA|DO|LA)\s*(?:No\.?)?\s*([\d-]+)`,
case-insensitive. -/
def docIdP2 : M :=
  mseqs [mwords ["rmc", "rmo", "rr", "da", "do", "la"], ws0,
         mopt (mseqs [mlit "no".toList, optDot]), ws0,
         many1 (fun c => c.isDigit || c = '-')]

/-- `Patterns.DOC_IDS[2]`: `F\.?\s*No\.?\s*([\d/.-]+)`, case-insensitive. -/
def docIdP3 : M :=
  mseqs [mchar (fun c => c = 'f'), optDot, ws0, mlit "no".toList, optDot, ws0,
         many1 (fun c => c.isDigit || c = '/' || c = '.' || c = '-')]

/-- `Patterns.DOC_IDS[3]`: `(?:No\.?|Number)\s*([\d]+[∕-][\d]+(?:[∕-][\d]+)?)`,
case-insensitive. -/
def docIdP4 : M :=
  mseqs [malt (mseqs [mlit "no".toList, optDot]) (mlit "number".toList), ws0,
         many1 Char.isDigit, sepSlashDash, many1 Char.isDigit,
         mopt (mseqs [sepSlashDash, many1 Char.isDigit])]

/-- `Patterns.DOC_IDS[4]`: `(?:S\.?O\.?|G\.?S\.?R\.?)\s*(\d+)`, case-insensitive. -/
def docIdP5 : M :=
  mseqs [malt (mseqs [mchar (fun c => c = 's'), optDot, mchar (fun c => c = 'o'), optDot])
              (mseqs [mchar (fun c => c = 'g'), optDot, mchar (fun c => c = 's'), optDot,
                      mchar (fun c => c = 'r'), optDot]),
         ws0, many1 Char.isDigit]

/-- `Patterns.DOC_IDS[5]` anchored with its word boundaries:
`\b(\d{1,4}[∕-]20\d{2})\b`. -/
def docIdP6At (prev : Option Char) (s : List Char) : Bool :=
  boundaryBefore prev &&
    (mseqs [mrange Char.isDigit 1 4, sepSlashDash, y20] s).any boundaryAfter

/-- `Patterns.DOC_IDS[6]` anchored with its word boundaries (case-sensitive):
`\b([A-Z]{2,5}[-∕]?\d{2,5}[-∕]?20\d{2})\b`. -/
def docIdP7At (prev : Option Char) (s : List Char) : Bool :=
  boundaryBefore prev &&
    (mseqs [mrange (fun c => 'A' <= c && c <= 'Z') 2 5, mopt sepSlashDash,
            mrange Char.isDigit 2 5, mopt sepSlashDash, y20] s).any boundaryAfter

/-- `re.search` over all seven `Patterns.DOC_IDS` patterns (the first six are
case-insensitive or digit-only and run on the lower-cased text; the seventh
is case-sensitive and runs on the original text). -/
def hasDocIdMatch (text : List Char) : Bool :=
  let tl := lowerL text
  searchAny docIdP1 tl || searchAny docIdP2 tl || searchAny docIdP3 tl ||
    searchAny docIdP4 tl || searchAny docIdP5 tl ||
    searchPrev docIdP6At none tl || searchPrev docIdP7At none text

/-- `Patterns.YEAR`: `\b(202[3-6])\b` anchored with its word boundaries. -/
def yearAt (prev : Option Char) (s : List Char) : Bool :=
  boundaryBefore prev &&
    (mseqs [mlit "202".toList,
            mchar (fun c => c = '3' || c = '4' || c = '5' || c = '6')] s).any boundaryAfter

/-- `re.search` for `Patterns.YEAR`. -/
def hasRecentYear (text : List Char) : Bool := searchPrev yearAt none text

/-- Position search for an arbitrary anchored predicate. -/
def searchPos (p : List Char → Bool) : List Char → Bool
  | [] => p []
  | c :: t => p (c :: t) || searchPos p t

/-- `Patterns.FILE_EXT`: `\.(pdf|doc|docx|xls|xlsx|rtf)(?:\?|$)`, case-insensitive
(run on the already lower-cased URL, as in the source). -/
def fileExtMatch (urlLower : List Char) : Bool :=
  searchPos
    (fun s =>
      ((mseqs [mchar (fun c => c = '.'),
               mwords ["pdf", "doc", "docx", "xls", "xlsx", "rtf"]]) s).any
        (fun rem => rem = [] || rem.head? = some '?'))
    urlLower

/-! ## Relevance filter (`class Filters` in audit.py) -/

/-- `Filters.NAVIGATION_BLOCKLIST` (the source frozenset has no duplicate
entries, so a list preserves both membership and count semantics). -/
def navigationBlocklist : List String :=
["home",
   "about",
   "about us",
   "contact",
   "contact us",
   "search",
   "login",
   "logout",
   "register",
   "sign in",
   "sign up",
   "sign out",
   "privacy",
   "privacy policy",
   "terms",
   "terms of service",
   "terms and conditions",
   "sitemap",
   "site map",
   "cookie",
   "cookies",
   "disclaimer",
   "legal",
   "help",
   "faq",
   "faqs",
   "support",
   "feedback",
   "skip to content",
   "skip to main content",
   "skip navigation",
   "main content",
   "screen reader",
   "accessible mode",
   "accessibility",
   "text size",
   "font size",
   "high contrast",
   "print",
   "share",
   "email",
   "tweet",
   "facebook",
   "twitter",
   "linkedin",
   "instagram",
   "youtube",
   "social media",
   "follow us",
   "subscribe",
   "newsletter",
   "logo",
   "banner",
   "header",
   "footer",
   "menu",
   "navigation",
   "breadcrumb",
   "back to top",
   "scroll to top",
   "read more",
   "learn more",
   "click here",
   "view all",
   "see all",
   "show more",
   "load more",
   "next",
   "previous",
   "first",
   "last",
   "page",
   "pagination",
   "turn on more accessible mode",
   "english",
   "hindi",
   "हिंदी",
   "arabic",
   "العربية",
   "français",
   "español",
   "select language",
   "change language",
   "translate",
   "नराकास",
   "services",
   "all services",
   "our services",
   "products",
   "solutions",
   "resources",
   "downloads",
   "documents",
   "publications",
   "media",
   "news",
   "events",
   "calendar",
   "gallery",
   "photos",
   "videos",
   "blog",
   "articles",
   "press room",
   "media center",
   "media centre",
   "newsroom",
   "careers",
   "jobs",
   "vacancies",
   "recruitment",
   "opportunities",
   "work with us",
   "tenders",
   "bids",
   "procurement",
   "auction",
   "rfp",
   "rfq",
   "eoi",
   "who we are",
   "leadership",
   "management",
   "board",
   "directors",
   "team",
   "staff",
   "employees",
   "departments",
   "divisions",
   "branches",
   "offices",
   "locations",
   "locate",
   "find us",
   "visit us",
   "address",
   "map",
   "directions",
   "mission",
   "vision",
   "values",
   "goals",
   "objectives",
   "history",
   "milestones",
   "who\x27s who",
   "whos who",
   "organogram",
   "organization chart",
   "for employers",
   "for employees",
   "for individuals",
   "for businesses",
   "for companies",
   "for citizens",
   "for taxpayers",
   "for members",
   "employer services",
   "employee services",
   "citizen services",
   "for international workers",
   "for office use",
   "domestic worker",
   "domestic workers",
   "partner services",
   "international agreements",
   "help desk",
   "toll free",
   "tollfree",
   "call center",
   "customer care",
   "photo albums",
   "awareness workshops",
   "previous awareness workshops",
   "service centres",
   "taxpayer service",
   "approved services centers",
   "training institutes",
   "capacity building",
   "chief executive officer",
   "central govt. industrial tribunal",
   "epf training institutes",
   "list of exempted establishment",
   "perfor. evaluation of exempted estt",
   "cancellation/grant notification",
   "exemption manuals and sops",
   "locate an epfo office",
   "publications & media kit",
   "labour market magazine",
   "info & services",
   "by heads of income/subject",
   "by status (individual/ huf etc.)",
   "about pin",
   "pin registration",
   "pin dormancy",
   "pin cancellation",
   "how to register",
   "how to file",
   "how to pay",
   "how to print",
   "how to print your pin certificate",
   "how to register for a kra pin",
   "how to deregister your pin",
   "requirements for registration",
   "procedures for",
   "guidelines for",
   "procedures for motor vehicle",
   "tax registration",
   "tax obligations",
   "tax types",
   "tax rates",
   "taxpayer segments",
   "e-commerce",
   "e-filing",
   "e-payment",
   "online services",
   "large taxpayer office",
   "area offices",
   "all gra offices",
   "regional offices",
   "taxpayer service centres",
   "links to register, file and pay taxes",
   "modified taxation scheme",
   "e-commerce filing",
   "individual income tax",
   "corporate income tax",
   "value added tax (vat)",
   "pay as you earn (paye)",
   "personal income tax (pit)",
   "vehicle income tax (vit)",
   "withholding tax",
   "tax compliance certificate (tcc)",
   "installment tax",
   "advance tax",
   "rental income tax",
   "capital gains tax",
   "turnover tax (tot)",
   "domestic tax",
   "individual",
   "circulars",
   "notifications",
   "orders",
   "resolutions",
   "regulations",
   "acts",
   "laws",
   "rules",
   "guidelines",
   "manuals",
   "handbooks",
   "forms",
   "templates",
   "formats",
   "public notices",
   "press releases",
   "resolutions & circulars",
   "laws & regulations",
   "guidance"]

/-- `Filters.DOCUMENT_KEYWORDS`. -/
def documentKeywords : List String :=
["circular",
   "notification",
   "order",
   "resolution",
   "memo",
   "memorandum",
   "advisory",
   "guideline",
   "directive",
   "gazette",
   "notice",
   "announcement",
   "amendment",
   "act",
   "bill",
   "rule",
   "regulation",
   "ordinance",
   "decree",
   "press release",
   "public notice",
   "practice note",
   "interpretation note",
   "revenue memorandum",
   "labor advisory",
   "tax advisory"]

/-- `Filters.REGULATORY_KEYWORDS`. -/
def regulatoryKeywords : List String :=
["income tax",
   "corporate tax",
   "vat",
   "gst",
   "customs",
   "excise",
   "withholding tax",
   "tds",
   "tcs",
   "capital gains",
   "tax rate",
   "tax slab",
   "tax exemption",
   "tax deduction",
   "tax credit",
   "tax relief",
   "tax rebate",
   "filing",
   "return",
   "assessment",
   "levy",
   "duty",
   "cess",
   "surcharge",
   "minimum wage",
   "wage revision",
   "wage rate",
   "salary",
   "remuneration",
   "overtime",
   "working hours",
   "leave",
   "holiday",
   "bonus",
   "gratuity",
   "termination",
   "retrenchment",
   "layoff",
   "severance",
   "notice period",
   "employment",
   "labor code",
   "labour law",
   "industrial relations",
   "provident fund",
   "pension",
   "superannuation",
   "retirement",
   "epf",
   "ppf",
   "social security",
   "insurance",
   "esi",
   "esic",
   "health insurance",
   "contribution",
   "employer contribution",
   "employee contribution",
   "compliance",
   "statutory",
   "mandatory",
   "deadline",
   "due date",
   "penalty",
   "interest",
   "fine",
   "prosecution",
   "enforcement",
   "registration",
   "license",
   "permit",
   "approval"]

/-- The `nav_url_patterns` local list of `Filters.is_navigation_junk`. -/
def navUrlPatterns : List String :=
  ["/about", "/contact", "/login", "/register", "/search", "/help",
   "/faq", "/privacy", "/terms", "/sitemap", "/careers", "/jobs",
   "/services", "/products", "?lang=", "&lang=", "#",
   "javascript:", "mailto:", "tel:"]

/-- `Filters.is_navigation_junk(text, url)`. -/
def isNavigationJunk (text url : String) : Bool :=
  let normalized := pyNormalize text
  let urlLower := lowerL url.toList
  if normalized.length < 8 then true
  else if navigationBlocklist.any (fun b => normalized = b.toList) then true
  else if navigationBlocklist.any (fun b =>
      normalized.length < 50 &&
        (b.toList.isPrefixOf normalized || b.toList.isSuffixOf normalized)) then true
  else if decide (2 <= (navigationBlocklist.filter
          (fun b => containsSub normalized b.toList)).length)
        && normalized.length < 60 then true
  else if navUrlPatterns.any (fun p =>
      containsSub urlLower p.toList && !containsSub urlLower ".pdf".toList) then true
  else false

/-- The evidence accumulated by `Filters.calculate_relevance_score`: one field
per weighted feature of the source, in source order. -/
structure ScoreFeatures where
  fileExt : Bool
  docId : Bool
  hasDate : Bool
  recentYear : Bool
  docKwCount : Nat
  regKwCount : Nat
  urlIndicator : Bool
  textLen : Nat
deriving DecidableEq, Repr

/-- The `url_indicators` local list of `Filters.calculate_relevance_score`. -/
def urlIndicators : List String :=
  ["/circular", "/notification", "/order", "/gazette", "/notice",
   "download", "attachment"]

/-- The feature extraction performed line by line by
`Filters.calculate_relevance_score(text, url)`. -/
def extractFeatures (text url : String) : ScoreFeatures :=
  let tL := text.toList
  let textLower := lowerL tL
  let urlLower := lowerL url.toList
  { fileExt := fileExtMatch urlLower
    docId := hasDocIdMatch tL
    hasDate := hasDateMatch tL
    recentYear := hasRecentYear tL
    docKwCount := (documentKeywords.filter (fun kw => containsSub textLower kw.toList)).length
    regKwCount := (regulatoryKeywords.filter (fun kw => containsSub textLower kw.toList)).length
    urlIndicator := urlIndicators.any (fun ind => containsSub urlLower ind.toList)
    textLen := tL.length }

/-- Python's builtin `min` on two rationals. -/
def pyMin (a b : ℚ) : ℚ := if a <= b then a else b

/-- The weighted accumulation of `Filters.calculate_relevance_score`, with the
source decimal weights as exact rationals (`0.3 = 3/10`, `0.25 = 1/4`,
`0.15 = 3/20`, `0.1 = 1/10`, `0.2 = 1/5`, `0.05 = 1/20`), clamped to `[0, 1]`. -/
def scoreOfFeatures (f : ScoreFeatures) : ℚ :=
  let s1 : ℚ := 0 + (if f.fileExt then 3/10 else 0)
  let s2 := s1 + (if f.docId then 1/4 else 0)
  let s3 := s2 + (if f.hasDate then 3/20 else 0)
  let s4 := s3 + (if f.recentYear then 1/10 else 0)
  let s5 := s4 + pyMin ((f.docKwCount : ℚ) * (1/10)) (1/5)
  let s6 := s5 + pyMin ((f.regKwCount : ℚ) * (1/20)) (3/20)
  let s7 := s6 + (if f.urlIndicator then 1/10 else 0)
  let s8 := s7 + (if f.textLen > 30 then 1/20 else 0)
  let s9 := s8 + (if f.textLen > 60 then 1/20 else 0)
  pyMin s9 1

/-- `Filters.calculate_relevance_score(text, url)`. -/
def calculateRelevanceScore (text url : String) : ℚ :=
  scoreOfFeatures (extractFeatures text url)

/-- `Filters.passes_filter(text, url, min_score)` (the source default for
`min_score` is `0.25`). -/
def passesFilter (text url : String) (minScore : ℚ) : Bool × ℚ :=
  if isNavigationJunk text url then (false, 0)
  else
    let score := calculateRelevanceScore text url
    (decide (minScore <= score), score)

/-! ## Data model (`DocumentCategory`, `Document`, `Repository` in audit.py) -/

/-- `class DocumentCategory(Enum)`. -/
inductive DocumentCategory where
  | TAX
  | LABOR
  | PENSION
  | SOCIAL_SECURITY
  | COMPLIANCE
  | OTHER
deriving DecidableEq, Repr

/-- The `.value` string of each `DocumentCategory` member. -/
def categoryValue : DocumentCategory → String
  | .TAX => "tax"
  | .LABOR => "labor"
  | .PENSION => "pension"
  | .SOCIAL_SECURITY => "social_security"
  | .COMPLIANCE => "compliance"
  | .OTHER => "other"

/-- The `Document` dataclass of audit.py. -/
structure Document where
  url : String
  title : String
  country : String
  agency : String
  dateFound : Option String := none
  datePublished : Option String := none
  docId : Option String := none
  contentSnippet : Option String := none
  isPdf : Bool := false
  relevanceScore : ℚ := 0
  category : DocumentCategory := .OTHER
  aiSummary : Option String := none
  isRelevant : Bool := false
deriving DecidableEq, Repr

/-- The `Repository` dataclass of audit.py. -/
structure Repository where
  url : String
  country : String
  agency : String
  docType : String := "general"
deriving DecidableEq, Repr

/-! ## Fingerprint store (`class Database` in audit.py)

The SQLite `documents` table is a list of rows; `url` is its primary key
and `url_hash` is unique, so `INSERT OR REPLACE` first deletes every row
conflicting on either column and then appends the new row.  The MD5
fingerprint is modelled by an abstract `hash : String → String`
parameter; the spec requires it to be "a cryptographic or equivalently
collision-resistant hash", which the theorems take as an injectivity
hypothesis where they need it.  The DB-generated `created_at` column is
omitted: `save_document` never writes it. -/

/-- A row of the `documents` table (the columns written by
`Database.save_document`). -/
structure DocRow where
  url : String
  urlHash : String
  country : String
  agency : String
  title : String
  docId : Option String
  dateFound : Option String
  datePublished : Option String
  relevanceScore : ℚ
  category : String
  aiSummary : Option String
  isRelevant : Nat
deriving DecidableEq, Repr

/-- The row that `Database.save_document(doc)` inserts. -/
def rowOfDoc (hash : String → String) (doc : Document) : DocRow :=
  { url := doc.url
    urlHash := hash doc.url
    country := doc.country
    agency := doc.agency
    title := doc.title
    docId := doc.docId
    dateFound := doc.dateFound
    datePublished := doc.datePublished
    relevanceScore := doc.relevanceScore
    category := categoryValue doc.category
    aiSummary := doc.aiSummary
    isRelevant := if doc.isRelevant then 1 else 0 }

/-- `Database.save_document`: `INSERT OR REPLACE` keyed on the `url` primary
key and the `url_hash` unique column – every conflicting row is removed and
the new row appended. -/
def saveDocument (hash : String → String) (store : List DocRow) (doc : Document) :
    List DocRow :=
  (store.filter (fun r => !(r.url = doc.url || r.urlHash = hash doc.url))) ++
    [rowOfDoc hash doc]

/-- `Database.is_new_url`: true iff no stored row has this URL's hash. -/
def isNewUrl (hash : String → String) (store : List DocRow) (url : String) : Bool :=
  !(store.any (fun r => r.urlHash = hash url))

/-- One step of the Python dict comprehension
`{hashlib.md5(url.encode()).hexdigest(): url for url in urls}`: inserting a
key that is already present overwrites its value in place. -/
def dictInsert (d : List (String × String)) (k v : String) : List (String × String) :=
  if d.any (fun p => p.1 = k) then d.map (fun p => if p.1 = k then (k, v) else p)
  else d ++ [(k, v)]

/-- The `url_hashes` dict of `Database.bulk_check_urls`. -/
def hashDict (hash : String → String) (urls : List String) : List (String × String) :=
  urls.foldl (fun d u => dictInsert d (hash u) u) []

/-- `Database.bulk_check_urls`: one query for all hashes, returning the set of
input URLs whose hash is not already stored. -/
def bulkCheckUrls (hash : String → String) (store : List DocRow) (urls : List String) :
    Finset String :=
  if urls = [] then ∅
  else
    let dict := hashDict hash urls
    let existing := (store.filter (fun r => dict.any (fun p => p.1 = r.urlHash))).map
      (fun r => r.urlHash)
    ((dict.filter (fun p => !(existing.contains p.1))).map (fun p => p.2)).toFinset

/-! ## Notifier adapters (message-length truncation)

The pure message-preparation step of each notifier send function; the
HTTP POST that follows is an external capability. -/

/-- The truncation marker of `TelegramReporter.send` (audit.py) and
`TelegramReporter.send_message` (payroll_news_monitor.py). -/
def telegramTruncMarker : List Char := "\n\n_(truncated)_".toList

/-- The truncation marker of `send_telegram` (calude_audit.py). -/
def caludeTruncMarker : List Char := "\n\n_[truncated]_".toList

/-- audit.py `TelegramReporter.send`: messages over 4000 characters become
the first 3900 characters plus the truncation marker. -/
def telegramSendPrepare (message : List Char) : List Char :=
  if message.length > 4000 then message.take 3900 ++ telegramTruncMarker else message

/-- payroll_news_monitor.py `TelegramReporter.send_message`: same truncation
rule as audit.py's `send`. -/
def newsMonitorSendPrepare (text : List Char) : List Char :=
  if text.length > 4000 then text.take 3900 ++ telegramTruncMarker else text

/-- calude_audit.py `send_telegram`: messages over 4000 characters become the
first 4000 characters plus the truncation marker. -/
def caludeSendPrepare (message : List Char) : List Char :=
  if message.length > 4000 then message.take 4000 ++ caludeTruncMarker else message

/-! ## Classifier adapter (`class GeminiAnalyzer` in audit.py) -/

/-- `Config.GEMINI_RETRY_ATTEMPTS`. -/
def geminiRetryAttempts : Nat := 3

/-- Python `str.upper` (ASCII). -/
def pyUpper (s : List Char) : List Char := s.map Char.toUpper

/-- Python `line.split(':', 1)[1]` (everything after the first colon). -/
def afterFirstColon : List Char → List Char
  | [] => []
  | c :: t => if c = ':' then t else afterFirstColon t

/-- Split on a separator character, keeping empty parts
(Python `str.split(sep)`). -/
def splitOnChar (sep : Char) : List Char → List (List Char)
  | [] => [[]]
  | c :: t =>
    if c = sep then [] :: splitOnChar sep t
    else
      match splitOnChar sep t with
      | [] => [[c]]
      | w :: ws => (c :: w) :: ws

/-- The `category_map` lookup of `GeminiAnalyzer._parse`, defaulting to
`OTHER` for unrecognised tokens. -/
def categoryFromToken (cat : List Char) : DocumentCategory :=
  if cat = "TAX".toList then .TAX
  else if cat = "LABOR".toList then .LABOR
  else if cat = "LABOUR".toList then .LABOR
  else if cat = "PENSION".toList then .PENSION
  else if cat = "SOCIAL_SECURITY".toList then .SOCIAL_SECURITY
  else if cat = "COMPLIANCE".toList then .COMPLIANCE
  else .OTHER

/-- `GeminiAnalyzer._parse(answer)`: fold over the lines of the stripped
answer, updating the `(is_relevant, summary, category)` state on lines
starting (case-insensitively) with `RELEVANT:`, `CATEGORY:`, `SUMMARY:`. -/
def parseGemini (answer : String) : Bool × String × DocumentCategory :=
  let lines := splitOnChar '\n' (pyStrip answer.toList)
  lines.foldl
    (fun st rawLine =>
      let line := pyStrip rawLine
      if "RELEVANT:".toList.isPrefixOf (pyUpper line) then
        (containsSub (pyUpper line) "YES".toList, st.2.1, st.2.2)
      else if "CATEGORY:".toList.isPrefixOf (pyUpper line) then
        (st.1, st.2.1, categoryFromToken (pyUpper (pyStrip (afterFirstColon line))))
      else if "SUMMARY:".toList.isPrefixOf (pyUpper line) then
        (st.1, String.mk (pyStrip (afterFirstColon line)), st.2.2)
      else st)
    (false, "Analysis unavailable", DocumentCategory.OTHER)

/-- The outcome of one Gemini API attempt, as observed by the `try` block of
`GeminiAnalyzer.analyze`: a 200 response with a well-formed body, a non-200
HTTP status (429 = rate limited), or an exception raised inside the block
(transport failure, timeout, malformed response body). -/
inductive GeminiOutcome where
  | success (answer : String)
  | status (code : Nat)
  | raised (msg : String)
deriving DecidableEq, Repr

/-- The body of one iteration of the retry loop of `GeminiAnalyzer.analyze`:
`.ok (some v)` = return verdict `v`, `.ok none` = rate limited, back off and
retry, `.error e` = the exception that the `except` clause will catch. -/
def geminiAttemptBody (o : GeminiOutcome) :
    Except String (Option (Bool × String × DocumentCategory)) :=
  match o with
  | .success ans => .ok (some (parseGemini ans))
  | .status code =>
    if code = 429 then .ok none
    else .ok (some (false, "API Error: " ++ toString code, .OTHER))
  | .raised e => .error e

/-- The retry loop of `GeminiAnalyzer.analyze` from a given attempt index:
every exception is caught (re-entering the loop before the last attempt,
degrading to a negative verdict on the last), and exhausting the attempt
range returns `(False, "Max retries", OTHER)`. -/
def geminiAnalyzeFrom (out : Nat → GeminiOutcome) (attempt : Nat) :
    Bool × String × DocumentCategory :=
  if attempt < geminiRetryAttempts then
    match geminiAttemptBody (out attempt) with
    | .ok (some v) => v
    | .ok none => geminiAnalyzeFrom out (attempt + 1)
    | .error e =>
      if attempt < geminiRetryAttempts - 1 then geminiAnalyzeFrom out (attempt + 1)
      else (false, "Error: " ++ e, .OTHER)
  else (false, "Max retries", .OTHER)
termination_by geminiRetryAttempts - attempt
decreasing_by all_goals omega

/-- `GeminiAnalyzer.analyze`, as a function of the outcome of each attempt. -/
def geminiAnalyze (out : Nat → GeminiOutcome) : Bool × String × DocumentCategory :=
  geminiAnalyzeFrom out 0

/-! ## URL resolution

`Scanner._scan_repo` resolves hrefs with `urllib.parse.urljoin(repo.url,
href)` and compares domains with `urlparse(...).netloc`; `run_scout` in
agent.py uses its own string concatenation.  `urljoin` is modelled from
the CPython implementation, restricted to `http`/`https` base URLs (the
only kind the repository configures). -/

/-- A character ending the netloc of a URL. -/
def urlDelim (c : Char) : Bool := c = '/' || c = '?' || c = '#'

/-- Parse `scheme://netloc<rest>` for an `http`/`https` URL:
`(scheme, netloc, rest)` where `rest` is path + query + fragment. -/
def parseHttpUrl (u : String) : Option (String × List Char × List Char) :=
  let cs := u.toList
  if "http://".toList.isPrefixOf cs then
    some ("http", (cs.drop 7).takeWhile (fun c => !urlDelim c),
          (cs.drop 7).dropWhile (fun c => !urlDelim c))
  else if "https://".toList.isPrefixOf cs then
    some ("https", (cs.drop 8).takeWhile (fun c => !urlDelim c),
          (cs.drop 8).dropWhile (fun c => !urlDelim c))
  else none

/-- `urlparse(u).netloc` for the URLs this model handles (empty for URLs
with no `http(s)://` prefix, as for `mailto:`/`javascript:` pseudo-URLs). -/
def netlocOf (u : String) : List Char :=
  match parseHttpUrl u with
  | some (_, n, _) => n
  | none => []

/-- Characters allowed in a URL scheme after the first (RFC 3986 /
CPython `scheme_chars`). -/
def schemeChar (c : Char) : Bool := c.isAlpha || c.isDigit || c = '+' || c = '-' || c = '.'

/-- CPython `urlsplit` scheme detection: a nonempty run of scheme characters
starting with a letter, followed by a colon. -/
def hasUrlScheme (cs : List Char) : Bool :=
  let pre := cs.takeWhile schemeChar
  !pre.isEmpty &&
    (match pre.head? with
     | some c => c.isAlpha
     | none => false) &&
    (cs.drop pre.length).head? = some ':'

/-- Split at the first occurrence of `sep`: `(before, after)`, with
`after = []` also when `sep` does not occur (an empty query/fragment is
dropped again on reassembly, as in CPython `urlunsplit`). -/
def splitFirst (sep : Char) : List Char → List Char × List Char
  | [] => ([], [])
  | c :: t =>
    if c = sep then ([], t)
    else
      let p := splitFirst sep t
      (c :: p.1, p.2)

/-- Python `path.split('/')` over characters. -/
def splitSlash : List Char → List (List Char)
  | [] => [[]]
  | c :: t =>
    if c = '/' then [] :: splitSlash t
    else
      match splitSlash t with
      | [] => [[c]]
      | w :: ws => (c :: w) :: ws

/-- Python `'/'.join(segments)` over characters. -/
def joinSlash : List (List Char) → List Char
  | [] => []
  | [w] => w
  | w :: ws => w ++ '/' :: joinSlash ws

/-- CPython urljoin `segments[1:-1] = filter(None, segments[1:-1])`, tail
part: drop empty segments except the last. -/
def fmTail : List (List Char) → List (List Char)
  | [] => []
  | [b] => [b]
  | b :: t => if b = [] then fmTail t else b :: fmTail t

/-- CPython urljoin `segments[1:-1] = filter(None, segments[1:-1])`: drop
empty segments except the first and the last. -/
def filterEmptyMiddle : List (List Char) → List (List Char)
  | [] => []
  | a :: rest => a :: fmTail rest

/-- The dot-segment resolution loop of CPython `urljoin`: `..` pops the
last resolved segment when more than one is present, `.` is dropped,
anything else is appended. -/
def resolveSegs (segs : List (List Char)) : List (List Char) :=
  segs.foldl
    (fun acc seg =>
      if seg = "..".toList then (if 2 <= acc.length then acc.dropLast else acc)
      else if seg = ".".toList then acc
      else acc ++ [seg])
    []

/-- `urllib.parse.urljoin(base, url)`, modelled from the CPython
implementation for `http`/`https` bases: an href with its own scheme is
returned unchanged, `//...` adopts the base scheme, an empty path keeps the
base path, otherwise the (absolute or merged) path has empty middle
segments (relative case) and dot segments resolved. -/
def urljoinModel (base href : String) : String :=
  match parseHttpUrl base with
  | none => href
  | some (scheme, bnetloc, brest) =>
    let hcs := href.toList
    if hasUrlScheme hcs then href
    else if "//".toList.isPrefixOf hcs then String.mk (scheme.toList ++ ':' :: hcs)
    else
      let bp := splitFirst '#' brest
      let bpq := splitFirst '?' bp.1
      let hp := splitFirst '#' hcs
      let hpq := splitFirst '?' hp.1
      if hpq.1 = [] then
        let q := if hpq.2 = [] then bpq.2 else hpq.2
        String.mk (scheme.toList ++ "://".toList ++ bnetloc ++ bpq.1 ++
          (if q = [] then [] else '?' :: q) ++ (if hp.2 = [] then [] else '#' :: hp.2))
      else
        let segments :=
          if hpq.1.head? = some '/' then splitSlash hpq.1
          else
            let baseParts := splitSlash bpq.1
            let baseParts :=
              if baseParts.getLast? = some [] then baseParts else baseParts.dropLast
            filterEmptyMiddle (baseParts ++ splitSlash hpq.1)
        let resolved := resolveSegs segments
        let resolved :=
          if segments.getLast? = some ".".toList || segments.getLast? = some "..".toList
          then resolved ++ [[]] else resolved
        let path := joinSlash resolved
        let path := if path = [] then ['/'] else path
        String.mk (scheme.toList ++ "://".toList ++ bnetloc ++ path ++
          (if hpq.2 = [] then [] else '?' :: hpq.2) ++
          (if hp.2 = [] then [] else '#' :: hp.2))

/-- Python `str.rstrip('/')`. -/
def rstripSlashes (s : List Char) : List Char :=
  (s.reverse.dropWhile (fun c => c = '/')).reverse

/-- The href cleanup of `run_scout` (agent.py): an href starting with the
literal `"http"` is kept unchanged; any other href is appended to the
slash-stripped configured base, inserting a `/` when the href does not
start with one. -/
def scoutResolve (base href : String) : String :=
  let u := href.toList
  if "http".toList.isPrefixOf u then href
  else
    let b := rstripSlashes base.toList
    if "/".toList.isPrefixOf u then String.mk (b ++ u) else String.mk (b ++ '/' :: u)

/-! ## Scanner (`Scanner._scan_repo` in audit.py)

The per-anchor pipeline of `_scan_repo`, over the harvested
`(href, text)` pairs of a page.  The captured text of the first matching
`DOC_IDS` / `DATES` group (`doc_id`, `date_published`) is abstracted as
the function parameters `docIdOf` / `dateOf`; every theorem below holds
for all such functions. -/

/-- `Config.MAX_DOCUMENTS_PER_REPO`. -/
def maxDocumentsPerRepo : Nat := 30

/-- `full_url.lower().endswith('.pdf')`. -/
def endsWithPdf (u : String) : Bool := ".pdf".toList.isSuffixOf (lowerL u.toList)

/-- The body of the anchor loop of `Scanner._scan_repo`: returns the
`Document` appended for this anchor, or `none` when a `continue` or a
failed filter drops it. -/
def anchorDoc (docIdOf dateOf : String → Option String) (repo : Repository)
    (now : String) (anchor : String × String) : Option Document :=
  let href := String.mk (pyStrip anchor.1.toList)
  let text := anchor.2
  if href = "" || text = "" || text.toList.length < 5 then none
  else
    let fullUrl := urljoinModel repo.url href
    if "#".toList.isPrefixOf href.toList || "javascript:".toList.isPrefixOf href.toList
    then none
    else if netlocOf fullUrl ≠ netlocOf repo.url && !endsWithPdf fullUrl then none
    else
      let pr := passesFilter text fullUrl (1/4)
      if pr.1 then
        some { url := fullUrl
               title := String.mk (text.toList.take 200)
               country := repo.country
               agency := repo.agency
               dateFound := some now
               datePublished := dateOf text
               docId := docIdOf text
               contentSnippet := none
               isPdf := endsWithPdf fullUrl
               relevanceScore := pr.2
               category := .OTHER
               aiSummary := none
               isRelevant := false }
      else none

/-- The full anchor loop of `Scanner._scan_repo` (before the final
truncation). -/
def scanRepoDocs (docIdOf dateOf : String → Option String) (repo : Repository)
    (now : String) (anchors : List (String × String)) : List Document :=
  anchors.filterMap (anchorDoc docIdOf dateOf repo now)

/-- `Scanner._scan_repo`'s returned list:
`docs[:Config.MAX_DOCUMENTS_PER_REPO]`. -/
def scanRepo (docIdOf dateOf : String → Option String) (repo : Repository)
    (now : String) (anchors : List (String × String)) : List Document :=
  (scanRepoDocs docIdOf dateOf repo now anchors).take maxDocumentsPerRepo

/-! ## Statement-support definitions -/

/-- Invariant of the `url_hashes` dict: every key is the hash of its value. -/
def dictKeyed (hash : String → String) (d : List (String × String)) : Prop :=
  ∀ p ∈ d, p.1 = hash p.2

/-- Assemble an `http`/`https` URL from scheme, netloc and path. -/
def mkHttpUrl (scheme : String) (netloc path : List Char) : String :=
  String.mk (scheme.toList ++ "://".toList ++ netloc ++ path)

/-- A plain URL path segment: nonempty, not a dot segment, and free of
separators, query/fragment delimiters and colons. -/
def plainSeg (s : List Char) : Prop :=
  s ≠ [] ∧ s ≠ ".".toList ∧ s ≠ "..".toList ∧
    ∀ c ∈ s, c ≠ '/' ∧ c ≠ '?' ∧ c ≠ '#' ∧ c ≠ ':'

instance (s : List Char) : Decidable (plainSeg s) := by
  unfold plainSeg
  infer_instance

/-! ## Theorems -/

/-- **C1** (blocklist precedence): for every text, URL and minimum score,
if the whitespace-normalized lowercased text equals an entry of
`Filters.NAVIGATION_BLOCKLIST`, then `Filters.passes_filter` returns
`(False, 0.0)` – the candidate is rejected outright regardless of any
score the heuristic gate would have assigned. -/
theorem blocklist_precedence_rejects (text url : String) (minScore : ℚ)
    (h : ∃ b ∈ navigationBlocklist, pyNormalize text = b.toList) :
    passesFilter text url minScore = (false, 0) := by
  have hj : isNavigationJunk text url = true := by
    have ha : navigationBlocklist.any (fun b => pyNormalize text = b.toList) = true := by
      rw [List.any_eq_true]
      obtain ⟨b, hb, he⟩ := h
      exact ⟨b, hb, by simp [he]⟩
    unfold isNavigationJunk
    dsimp only
    split
    · rfl
    · simp [ha]
  simp [passesFilter, hj]

/-- Witness for C1: the spec's own example, `text="Home"` with a URL
containing `"circular"`, is rejected with score `0.0`. -/
theorem blocklist_precedence_rejects_witness :
    (∃ b ∈ navigationBlocklist, pyNormalize "Home" = b.toList) ∧
      passesFilter "Home" "https://example.gov/circulars" (1/4) = (false, 0) :=
  ⟨by decide,
   blocklist_precedence_rejects "Home" "https://example.gov/circulars" (1/4) (by decide)⟩

/-- **C8** (inclusive threshold): for every text and URL not rejected as
navigation junk, `Filters.passes_filter` passes exactly when the computed
relevance score is `≥ min_score` (so a candidate whose score equals the
threshold passes), and the returned score is the computed score. -/
theorem passes_filter_inclusive_threshold (text url : String) (minScore : ℚ)
    (h : isNavigationJunk text url = false) :
    ((passesFilter text url minScore).1 = true ↔
        minScore ≤ calculateRelevanceScore text url) ∧
      (passesFilter text url minScore).2 = calculateRelevanceScore text url := by
  simp [passesFilter, h]

set_option maxRecDepth 100000 in
/-- Witness for C8: a concrete candidate with score exactly `0.35 = 7/20`
passes at threshold exactly `7/20` (a tie at the threshold passes). -/
theorem passes_filter_inclusive_threshold_witness :
    isNavigationJunk "Wage revision effective" "https://example.gov/docs/x.pdf" = false ∧
      calculateRelevanceScore "Wage revision effective" "https://example.gov/docs/x.pdf"
        = 7/20 ∧
      (passesFilter "Wage revision effective" "https://example.gov/docs/x.pdf" (7/20)).1
        = true := by
  have hf : extractFeatures "Wage revision effective" "https://example.gov/docs/x.pdf"
      = ⟨true, false, false, false, 0, 1, false, 23⟩ := by decide
  have hscore : calculateRelevanceScore "Wage revision effective"
      "https://example.gov/docs/x.pdf" = 7/20 := by
    rw [calculateRelevanceScore, hf]
    norm_num [scoreOfFeatures, pyMin]
  refine ⟨by decide, hscore, ?_⟩
  exact (passes_filter_inclusive_threshold "Wage revision effective"
      "https://example.gov/docs/x.pdf" (7/20) (by decide)).1.mpr (le_of_eq hscore.symm)

/-- `pyMin` is monotone in its first argument. -/
theorem pyMin_mono_left {a b c : ℚ} (h : a ≤ b) : pyMin a c ≤ pyMin b c := by
  unfold pyMin
  split_ifs <;> linarith

/-- **C3** (filter monotonicity): holding every other score factor fixed,
increasing the count of matched regulatory keywords never decreases
`Filters.calculate_relevance_score` (stated over the feature vector that
`calculate_relevance_score` accumulates, i.e. over `scoreOfFeatures`, the
weighted-sum stage of `calculateRelevanceScore`). -/
theorem relevance_score_monotone_regulatory (f g : ScoreFeatures)
    (h1 : f.fileExt = g.fileExt) (h2 : f.docId = g.docId)
    (h3 : f.hasDate = g.hasDate) (h4 : f.recentYear = g.recentYear)
    (h5 : f.docKwCount = g.docKwCount) (h6 : f.regKwCount ≤ g.regKwCount)
    (h7 : f.urlIndicator = g.urlIndicator) (h8 : f.textLen = g.textLen) :
    scoreOfFeatures f ≤ scoreOfFeatures g := by
  have hcast : (f.regKwCount : ℚ) ≤ (g.regKwCount : ℚ) := by exact_mod_cast h6
  have hreg : pyMin ((f.regKwCount : ℚ) * (1/20)) (3/20) ≤
      pyMin ((g.regKwCount : ℚ) * (1/20)) (3/20) :=
    pyMin_mono_left (by linarith)
  unfold scoreOfFeatures
  rw [h1, h2, h3, h4, h5, h7, h8]
  dsimp only
  exact pyMin_mono_left (by linarith)

/-- Witness for C3: one extra regulatory keyword (1 → 2 matches, all other
features fixed) raises the score from `0.05` to `0.10`. -/
theorem relevance_score_monotone_regulatory_witness :
    scoreOfFeatures ⟨false, false, false, false, 0, 1, false, 0⟩ ≤
      scoreOfFeatures ⟨false, false, false, false, 0, 2, false, 0⟩ :=
  relevance_score_monotone_regulatory _ _ rfl rfl rfl rfl rfl (by decide) rfl rfl

/-- **C10** (per-repository cap): one repository scan yields at most
`Config.MAX_DOCUMENTS_PER_REPO = 30` candidate documents –
`Scanner._scan_repo` truncates to the first 30 documents in page order. -/
theorem scan_repo_capped (docIdOf dateOf : String → Option String) (repo : Repository)
    (now : String) (anchors : List (String × String)) :
    (scanRepo docIdOf dateOf repo now anchors).length ≤ maxDocumentsPerRepo ∧
      maxDocumentsPerRepo = 30 ∧
      scanRepo docIdOf dateOf repo now anchors =
        (scanRepoDocs docIdOf dateOf repo now anchors).take 30 := by
  refine ⟨?_, rfl, rfl⟩
  exact List.length_take_le maxDocumentsPerRepo (scanRepoDocs docIdOf dateOf repo now anchors)

/-- **C5, counterexample**: the claim "the notifier's send operation delivers
a message of at most 4000 characters total" is false for
`send_telegram` in calude_audit.py: a 5000-character message becomes the
4000-character prefix plus the 15-character marker, 4015 characters. -/
theorem notifier_truncation_counterexample :
    4000 < (caludeSendPrepare (List.replicate 5000 'a')).length := by
  have h : (List.replicate 5000 'a').length > 4000 := by
    rw [List.length_replicate]
    omega
  have hm : caludeTruncMarker.length = 15 := by decide
  rw [caludeSendPrepare, if_pos h, List.length_append, List.length_take,
    List.length_replicate, hm]
  omega

/-- **C5, amended**: for every message longer than 4000 characters,
audit.py's `TelegramReporter.send` and payroll_news_monitor.py's
`TelegramReporter.send_message` deliver exactly 3915 characters (≤ 4000)
ending in the visible truncation marker, while calude_audit.py's
`send_telegram` delivers exactly 4015 characters – 15 over the 4000
ceiling – ending in its truncation marker. -/
theorem notifier_truncation_amended (m : List Char) (h : 4000 < m.length) :
    (telegramSendPrepare m).length = 3915 ∧
      (telegramSendPrepare m).length ≤ 4000 ∧
      telegramTruncMarker <:+ telegramSendPrepare m ∧
      (newsMonitorSendPrepare m).length = 3915 ∧
      telegramTruncMarker <:+ newsMonitorSendPrepare m ∧
      (caludeSendPrepare m).length = 4015 ∧
      caludeTruncMarker <:+ caludeSendPrepare m := by
  have hmark : telegramTruncMarker.length = 15 := by decide
  have hmark2 : caludeTruncMarker.length = 15 := by decide
  have ht : (telegramSendPrepare m) = m.take 3900 ++ telegramTruncMarker := by
    rw [telegramSendPrepare, if_pos h]
  have hn : (newsMonitorSendPrepare m) = m.take 3900 ++ telegramTruncMarker := by
    rw [newsMonitorSendPrepare, if_pos h]
  have hc : (caludeSendPrepare m) = m.take 4000 ++ caludeTruncMarker := by
    rw [caludeSendPrepare, if_pos h]
  have hlen1 : (telegramSendPrepare m).length = 3915 := by
    rw [ht, List.length_append, List.length_take, hmark]
    omega
  refine ⟨hlen1, by omega, ?_, ?_, ?_, ?_, ?_⟩
  · rw [ht]
    exact List.suffix_append _ _
  · rw [hn, List.length_append, List.length_take, hmark]
    omega
  · rw [hn]
    exact List.suffix_append _ _
  · rw [hc, List.length_append, List.length_take, hmark2]
    omega
  · rw [hc]
    exact List.suffix_append _ _

/-- Witness for the amended C5: the spec's 5000-character message. -/
theorem notifier_truncation_amended_witness :
    4000 < (List.replicate 5000 'a').length ∧
      (telegramSendPrepare (List.replicate 5000 'a')).length = 3915 :=
  ⟨by rw [List.length_replicate]; omega,
   (notifier_truncation_amended (List.replicate 5000 'a')
       (by rw [List.length_replicate]; omega)).1⟩

/-- **C2** (deduplication invariant / idempotent persist): on a store whose
URLs are pairwise distinct, `Database.save_document` (1) preserves that
invariant, (2) leaves no two distinct records with the same URL, (3) leaves
exactly one record for the saved URL – the new one (overwrite, not a second
row and not an error: the function is total), and (4) is idempotent. -/
theorem save_document_unique_idempotent (hash : String → String) (store : List DocRow)
    (doc : Document) (h : store.Pairwise (fun r1 r2 => r1.url ≠ r2.url)) :
    (saveDocument hash store doc).Pairwise (fun r1 r2 => r1.url ≠ r2.url) ∧
      (∀ r1 ∈ saveDocument hash store doc, ∀ r2 ∈ saveDocument hash store doc,
        r1.url = r2.url → r1 = r2) ∧
      ((saveDocument hash store doc).filter (fun r => r.url = doc.url))
        = [rowOfDoc hash doc] ∧
      saveDocument hash (saveDocument hash store doc) doc = saveDocument hash store doc := by
  have hnew : ∀ r ∈ store.filter
      (fun r => !(r.url = doc.url || r.urlHash = hash doc.url)), r.url ≠ doc.url := by
    intro r hr
    have := List.of_mem_filter hr
    simp only [Bool.not_eq_true', Bool.or_eq_false_iff, decide_eq_false_iff_not] at this
    exact this.1
  have hpw : (saveDocument hash store doc).Pairwise (fun r1 r2 => r1.url ≠ r2.url) := by
    rw [saveDocument, List.pairwise_append]
    refine ⟨h.filter _, List.pairwise_singleton _ _, ?_⟩
    intro r1 h1 r2 h2
    rw [List.mem_singleton] at h2
    subst h2
    exact hnew r1 h1
  refine ⟨hpw, ?_, ?_, ?_⟩
  · intro r1 h1 r2 h2 hurl
    by_contra hne
    exact hpw.forall (fun a b hab => (hab ∘ Eq.symm)) h1 h2 hne hurl
  · rw [saveDocument, List.filter_append]
    have h1 : (store.filter
        (fun r => !(r.url = doc.url || r.urlHash = hash doc.url))).filter
          (fun r => r.url = doc.url) = [] := by
      rw [List.filter_eq_nil_iff]
      intro r hr
      simp only [decide_eq_true_eq]
      exact hnew r hr
    rw [h1]
    have h2 : (rowOfDoc hash doc).url = doc.url := rfl
    simp [h2]
  · rw [saveDocument, saveDocument, List.filter_append]
    have h1 : ([rowOfDoc hash doc].filter
        (fun r => !(r.url = doc.url || r.urlHash = hash doc.url))) = [] := by
      simp [rowOfDoc]
    rw [h1, List.append_nil, List.filter_filter]
    congr 1
    apply List.filter_congr
    intro r _
    simp [Bool.and_self]

/-- Witness for C2: re-persisting the single stored URL `"u"` overwrites
and is idempotent. -/
theorem save_document_unique_idempotent_witness :
    ([rowOfDoc (fun s => s) { url := "u", title := "t", country := "c", agency := "a" }]
        : List DocRow).Pairwise (fun r1 r2 => r1.url ≠ r2.url) ∧
      saveDocument (fun s => s)
          (saveDocument (fun s => s)
            [rowOfDoc (fun s => s) { url := "u", title := "t", country := "c", agency := "a" }]
            { url := "u", title := "t2", country := "c", agency := "a" })
          { url := "u", title := "t2", country := "c", agency := "a" }
        = saveDocument (fun s => s)
            [rowOfDoc (fun s => s) { url := "u", title := "t", country := "c", agency := "a" }]
            { url := "u", title := "t2", country := "c", agency := "a" } :=
  ⟨by simp, (save_document_unique_idempotent (fun s => s)
      [rowOfDoc (fun s => s) { url := "u", title := "t", country := "c", agency := "a" }]
      { url := "u", title := "t2", country := "c", agency := "a" } (by simp)).2.2.2⟩

/-- Every result of the retry loop of `GeminiAnalyzer.analyze` is either a
parsed verdict or a negative `(False, _, OTHER)` verdict, whatever the
outcome of each attempt. -/
theorem geminiAnalyzeFrom_cases (out : Nat → GeminiOutcome) :
    ∀ n attempt, geminiRetryAttempts - attempt ≤ n →
      (∃ ans, geminiAnalyzeFrom out attempt = parseGemini ans) ∨
        ((geminiAnalyzeFrom out attempt).1 = false ∧
          (geminiAnalyzeFrom out attempt).2.2 = DocumentCategory.OTHER) := by
  intro n
  induction n with
  | zero =>
    intro attempt hle
    rw [geminiAnalyzeFrom, if_neg (by omega)]
    exact Or.inr ⟨rfl, rfl⟩
  | succ n ih =>
    intro attempt hle
    by_cases hlt : attempt < geminiRetryAttempts
    · rw [geminiAnalyzeFrom, if_pos hlt]
      rcases ho : out attempt with ans | code | e
      · exact Or.inl ⟨ans, by simp [geminiAttemptBody]⟩
      · by_cases h429 : code = 429
        · have := ih (attempt + 1) (by omega)
          simpa [geminiAttemptBody, h429] using this
        · right
          simp [geminiAttemptBody, h429]
      · by_cases hlast : attempt < geminiRetryAttempts - 1
        · have := ih (attempt + 1) (by omega)
          simpa [geminiAttemptBody, hlast] using this
        · right
          simp [geminiAttemptBody, hlast]
    · rw [geminiAnalyzeFrom, if_neg hlt]
      exact Or.inr ⟨rfl, rfl⟩

/-- **C6** (classifier adapter never raises): `GeminiAnalyzer.analyze` is
total over every possible sequence of attempt outcomes – every exception
raised inside an attempt is caught by the embedded `except` handler – and
it returns either the parsed verdict of a successful attempt or, on any
transport/API error and on rate-limit exhaustion, a negative verdict
(`is_relevant = False`, category `OTHER`). -/
theorem gemini_analyze_never_raises (out : Nat → GeminiOutcome) :
    (∃ ans, geminiAnalyze out = parseGemini ans) ∨
      ((geminiAnalyze out).1 = false ∧ (geminiAnalyze out).2.2 = DocumentCategory.OTHER) :=
  geminiAnalyzeFrom_cases out geminiRetryAttempts 0 (by omega)

/-- **C9** (off-domain non-PDF links are dropped): if the resolved absolute
URL of a harvested anchor has a netloc different from the repository
page's and does not end in `.pdf` (case-insensitively), then the anchor
loop of `Scanner._scan_repo` produces no `Document` for it. -/
theorem offdomain_nonpdf_dropped (docIdOf dateOf : String → Option String)
    (repo : Repository) (now : String) (anchor : String × String)
    (hd : netlocOf (urljoinModel repo.url (String.mk (pyStrip anchor.1.toList)))
        ≠ netlocOf repo.url)
    (hp : endsWithPdf (urljoinModel repo.url (String.mk (pyStrip anchor.1.toList)))
        = false) :
    anchorDoc docIdOf dateOf repo now anchor = none := by
  rw [anchorDoc]
  dsimp only
  split
  · rfl
  · split
    · rfl
    · split
      · rfl
      · rename_i hfalse
        simp only [String.toList] at hd hp
        exact absurd (by simp [hd, hp]) hfalse

/-- Witness for C9: an absolute anchor to a foreign domain, with text that
would otherwise pass every filter, yields no document. -/
theorem offdomain_nonpdf_dropped_witness :
    netlocOf (urljoinModel "https://x.gov/notices"
        (String.mk (pyStrip ("https://other.org/page.html" : String).toList)))
      ≠ netlocOf "https://x.gov/notices" ∧
    anchorDoc (fun _ => none) (fun _ => none)
        { url := "https://x.gov/notices", country := "K", agency := "A" } "2026-01-01"
        ("https://other.org/page.html", "Wage revision effective") = none :=
  ⟨by decide,
   offdomain_nonpdf_dropped (fun _ => none) (fun _ => none)
     { url := "https://x.gov/notices", country := "K", agency := "A" } "2026-01-01"
     ("https://other.org/page.html", "Wage revision effective") (by decide) (by decide)⟩

/-- `dictInsert` with key `hash u` preserves the keying invariant. -/
theorem dictInsert_keyed (hash : String → String) {d : List (String × String)}
    (hd : dictKeyed hash d) (u : String) :
    dictKeyed hash (dictInsert d (hash u) u) := by
  intro p hp
  rw [dictInsert] at hp
  split at hp
  · obtain ⟨q, hq, hfq⟩ := List.mem_map.1 hp
    by_cases hk : q.1 = hash u
    · rw [if_pos hk] at hfq
      rw [← hfq]
    · rw [if_neg hk] at hfq
      exact hfq ▸ hd q hq
  · rcases List.mem_append.1 hp with h | h
    · exact hd p h
    · rw [List.mem_singleton] at h
      rw [h]

/-- Inserting `u` under an injective hash leaves exactly the old values
plus `u` (overwriting an equal-hash entry rewrites it with itself). -/
theorem mem_values_dictInsert (hash : String → String)
    (hinj : Function.Injective hash) {d : List (String × String)}
    (hd : dictKeyed hash d) (u v : String) :
    v ∈ (dictInsert d (hash u) u).map Prod.snd ↔ v ∈ d.map Prod.snd ∨ v = u := by
  rw [dictInsert]
  split
  · rename_i hany
    obtain ⟨q, hq, hk⟩ := List.any_eq_true.1 hany
    rw [decide_eq_true_eq] at hk
    have hqu : q = (hash u, u) := by
      have h1 : q.1 = hash q.2 := hd q hq
      have h2 : q.2 = u := hinj (by rw [← h1, hk])
      rw [Prod.ext_iff]
      exact ⟨by rw [hk], h2⟩
    have hmap : d.map (fun p => if p.1 = hash u then (hash u, u) else p) = d := by
      have : ∀ p ∈ d, (fun p => if p.1 = hash u then (hash u, u) else p) p = id p := by
        intro p hp
        by_cases hpk : p.1 = hash u
        · have h1 : p.1 = hash p.2 := hd p hp
          have h2 : p.2 = u := hinj (by rw [← h1, hpk])
          simp only [if_pos hpk, id]
          rw [Prod.ext_iff]
          exact ⟨hpk.symm, h2.symm⟩
        · simp only [if_neg hpk, id]
      rw [List.map_congr_left this, List.map_id]
    rw [hmap]
    have hu : u ∈ d.map Prod.snd := by
      rw [List.mem_map]
      exact ⟨q, hq, by rw [hqu]⟩
    constructor
    · exact Or.inl
    · rintro (h | rfl)
      · exact h
      · exact hu
  · simp [List.mem_append]

/-- The dict built by the comprehension keeps the keying invariant, starting
from any keyed accumulator. -/
theorem foldl_dict_keyed (hash : String → String) :
    ∀ (urls : List String) (d : List (String × String)), dictKeyed hash d →
      dictKeyed hash (urls.foldl (fun d u => dictInsert d (hash u) u) d) := by
  intro urls
  induction urls with
  | nil => intro d hd; exact hd
  | cons u rest ih =>
    intro d hd
    exact ih _ (dictInsert_keyed hash hd u)

/-- Under an injective hash, the values of the comprehension dict are the
accumulator's values plus the listed URLs. -/
theorem foldl_dict_values (hash : String → String) (hinj : Function.Injective hash)
    (v : String) :
    ∀ (urls : List String) (d : List (String × String)), dictKeyed hash d →
      (v ∈ (urls.foldl (fun d u => dictInsert d (hash u) u) d).map Prod.snd ↔
        v ∈ d.map Prod.snd ∨ v ∈ urls) := by
  intro urls
  induction urls with
  | nil =>
    intro d hd
    simp
  | cons u rest ih =>
    intro d hd
    rw [List.foldl_cons, ih _ (dictInsert_keyed hash hd u),
      mem_values_dictInsert hash hinj hd u v, List.mem_cons]
    tauto

/-- `dictKeyed` holds of the `url_hashes` dict. -/
theorem hashDict_keyed (hash : String → String) (urls : List String) :
    dictKeyed hash (hashDict hash urls) :=
  foldl_dict_keyed hash urls [] (by intro p hp; cases hp)

/-- Under an injective hash, the values of the `url_hashes` dict are exactly
the input URLs. -/
theorem mem_values_hashDict (hash : String → String) (hinj : Function.Injective hash)
    (urls : List String) (v : String) :
    v ∈ (hashDict hash urls).map Prod.snd ↔ v ∈ urls := by
  rw [hashDict, foldl_dict_values hash hinj v urls [] (by intro p hp; cases hp)]
  simp

/-- **C4** (bulk check agrees with the per-URL check): with the URL
fingerprint modelled as an injective hash (the spec requires a
collision-resistant one), `Database.bulk_check_urls(urls)` returns exactly
the input URLs `u` for which `Database.is_new_url(u)` is true on the same
store. -/
theorem bulk_check_agrees_pointwise (hash : String → String) (store : List DocRow)
    (urls : List String) (hinj : Function.Injective hash) (u : String) :
    u ∈ bulkCheckUrls hash store urls ↔ u ∈ urls ∧ isNewUrl hash store u = true := by
  rw [bulkCheckUrls]
  split
  · rename_i hnil
    subst hnil
    simp
  · dsimp only
    rw [List.mem_toFinset]
    constructor
    · intro hmem
      obtain ⟨p, hpf, hpv⟩ := List.mem_map.1 hmem
      obtain ⟨hpd, hq⟩ := List.mem_filter.1 hpf
      have hk : p.1 = hash p.2 := hashDict_keyed hash urls p hpd
      have hval : p.2 ∈ urls :=
        (mem_values_hashDict hash hinj urls p.2).1 (List.mem_map.2 ⟨p, hpd, rfl⟩)
      simp only [Bool.not_eq_eq_eq_not, Bool.not_true, List.contains, List.elem_eq_mem,
        decide_eq_false_iff_not] at hq
      subst hpv
      refine ⟨hval, ?_⟩
      rw [isNewUrl, Bool.not_eq_true', List.any_eq_false]
      intro r hr
      simp only [decide_eq_true_eq]
      intro heq
      apply hq
      rw [List.mem_map]
      refine ⟨r, ?_, by rw [heq, hk]⟩
      rw [List.mem_filter]
      refine ⟨hr, ?_⟩
      rw [List.any_eq_true]
      exact ⟨p, hpd, by rw [decide_eq_true_eq, hk, heq]⟩
    · rintro ⟨hu, hnew⟩
      have hval : u ∈ (hashDict hash urls).map Prod.snd :=
        (mem_values_hashDict hash hinj urls u).2 hu
      obtain ⟨p, hpd, hpv⟩ := List.mem_map.1 hval
      have hk : p.1 = hash p.2 := hashDict_keyed hash urls p hpd
      rw [List.mem_map]
      refine ⟨p, List.mem_filter.2 ⟨hpd, ?_⟩, hpv⟩
      simp only [Bool.not_eq_eq_eq_not, Bool.not_true, List.contains, List.elem_eq_mem,
        decide_eq_false_iff_not]
      intro hin
      obtain ⟨r, hrf, hrh⟩ := List.mem_map.1 hin
      have hrs := (List.mem_filter.1 hrf).1
      rw [isNewUrl, Bool.not_eq_true', List.any_eq_false] at hnew
      exact hnew r hrs (decide_eq_true (by rw [hrh, hk, hpv]))

/-- Witness for C4: with the identity fingerprint, a store holding `"a"`,
and input `["a", "b"]`, the bulk check returns exactly `{"b"}`, agreeing
with `is_new_url`. -/
theorem bulk_check_agrees_pointwise_witness :
    ("b" ∈ ["a", "b"] ∧ isNewUrl (fun s => s)
        [{ url := "a", urlHash := "a", country := "c", agency := "a", title := "t",
           docId := none, dateFound := none, datePublished := none, relevanceScore := 0,
           category := "other", aiSummary := none, isRelevant := 0 }] "b" = true) ∧
      "b" ∈ bulkCheckUrls (fun s => s)
        [{ url := "a", urlHash := "a", country := "c", agency := "a", title := "t",
           docId := none, dateFound := none, datePublished := none, relevanceScore := 0,
           category := "other", aiSummary := none, isRelevant := 0 }] ["a", "b"] :=
  ⟨⟨by decide, by decide⟩,
   (bulk_check_agrees_pointwise (fun s => s)
     [{ url := "a", urlHash := "a", country := "c", agency := "a", title := "t",
        docId := none, dateFound := none, datePublished := none, relevanceScore := 0,
        category := "other", aiSummary := none, isRelevant := 0 }] ["a", "b"]
     (fun _ _ h => h) "b").2 ⟨by decide, by decide⟩⟩

/-- A list is a Boolean prefix of itself followed by anything. -/
theorem isPrefixOf_append_self (l r : List Char) : l.isPrefixOf (l ++ r) = true := by
  induction l with
  | nil => simp [List.isPrefixOf]
  | cons c t ih => simp [List.isPrefixOf, ih]

/-- `takeWhile` and `dropWhile` split an append exactly at the boundary when
the left part satisfies the predicate and the right part starts by failing
it (or is empty). -/
theorem takeWhile_dropWhile_append (p : Char → Bool) (a b : List Char)
    (ha : ∀ c ∈ a, p c = true) (hb : b = [] ∨ ∃ c t, b = c :: t ∧ p c = false) :
    (a ++ b).takeWhile p = a ∧ (a ++ b).dropWhile p = b := by
  induction a with
  | nil =>
    rcases hb with rfl | ⟨c, t, rfl, hc⟩
    · exact ⟨rfl, rfl⟩
    · simp [List.takeWhile_cons, List.dropWhile_cons, hc]
  | cons x a ih =>
    have hx : p x = true := ha x (List.mem_cons_self x a)
    have := ih (fun c hc => ha c (List.mem_cons_of_mem x hc))
    simp [List.takeWhile_cons, List.dropWhile_cons, hx, this.1, this.2]

/-- `parseHttpUrl` inverts `mkHttpUrl` when the netloc is delimiter-free and
the path is empty or starts with `/`. -/
theorem parseHttpUrl_mkHttpUrl (scheme : String) (netloc path : List Char)
    (hs : scheme = "http" ∨ scheme = "https")
    (hn : ∀ c ∈ netloc, urlDelim c = false)
    (hp : path = [] ∨ path.head? = some '/') :
    parseHttpUrl (mkHttpUrl scheme netloc path) = some (scheme, netloc, path) := by
  have hsplit : (netloc ++ path).takeWhile (fun c => !urlDelim c) = netloc ∧
      (netloc ++ path).dropWhile (fun c => !urlDelim c) = path := by
    apply takeWhile_dropWhile_append
    · intro c hc
      simp [hn c hc]
    · rcases hp with rfl | hh
      · exact Or.inl rfl
      · rcases path with _ | ⟨c, t⟩
        · exact Or.inl rfl
        · rw [List.head?_cons, Option.some_inj] at hh
          subst hh
          exact Or.inr ⟨'/', t, rfl, by simp [urlDelim]⟩
  rcases hs with rfl | rfl
  · have h1 : (mkHttpUrl "http" netloc path).toList
        = "http://".toList ++ (netloc ++ path) := by
      simp [mkHttpUrl]
    rw [parseHttpUrl, h1, if_pos (isPrefixOf_append_self _ _)]
    have h2 : ("http://".toList ++ (netloc ++ path)).drop 7 = netloc ++ path := by
      rw [List.drop_left' (by rfl)]
    rw [h2, hsplit.1, hsplit.2]
  · have h1 : (mkHttpUrl "https" netloc path).toList
        = "https://".toList ++ (netloc ++ path) := by
      simp [mkHttpUrl]
    have hpre : ("http://".toList).isPrefixOf
        ("https://".toList ++ (netloc ++ path)) = false := by
      have e1 : "http://".toList = ['h', 't', 't', 'p', ':', '/', '/'] := rfl
      have e2 : "https://".toList = ['h', 't', 't', 'p', 's', ':', '/', '/'] := rfl
      rw [e1, e2]
      simp [List.isPrefixOf]
    rw [parseHttpUrl, h1, hpre]
    rw [if_neg (by simp)]
    rw [if_pos (isPrefixOf_append_self _ _)]
    have h2 : ("https://".toList ++ (netloc ++ path)).drop 8 = netloc ++ path := by
      rw [List.drop_left' (by rfl)]
    rw [h2, hsplit.1, hsplit.2]

/-- `splitFirst` on a list not containing the separator is the identity. -/
theorem splitFirst_not_mem (sep : Char) (s : List Char) (h : sep ∉ s) :
    splitFirst sep s = (s, []) := by
  induction s with
  | nil => rfl
  | cons c t ih =>
    rw [splitFirst]
    rw [if_neg (by rintro rfl; exact h (List.mem_cons_self _ _))]
    rw [ih (fun hm => h (List.mem_cons_of_mem _ hm))]

/-- Characters of `joinSlash` come from the separator or the segments. -/
theorem mem_joinSlash (ws : List (List Char)) (c : Char) (h : c ∈ joinSlash ws) :
    c = '/' ∨ ∃ w ∈ ws, c ∈ w := by
  induction ws with
  | nil => cases h
  | cons w ws ih =>
    rcases ws with _ | ⟨w2, ws⟩
    · exact Or.inr ⟨w, List.mem_cons_self _ _, h⟩
    · have hj : joinSlash (w :: w2 :: ws) = w ++ '/' :: joinSlash (w2 :: ws) := rfl
      rw [hj] at h
      rcases List.mem_append.1 h with hw | hrest
      · exact Or.inr ⟨w, List.mem_cons_self _ _, hw⟩
      · rcases List.mem_cons.1 hrest with rfl | hr
        · exact Or.inl rfl
        · rcases ih hr with h1 | ⟨w3, hw3, hc⟩
          · exact Or.inl h1
          · exact Or.inr ⟨w3, List.mem_cons_of_mem _ hw3, hc⟩

/-- `splitSlash` of a slash-free word is that single word. -/
theorem splitSlash_no_slash (w : List Char) (h : '/' ∉ w) : splitSlash w = [w] := by
  induction w with
  | nil => rfl
  | cons c t ih =>
    rw [splitSlash]
    rw [if_neg (by rintro rfl; exact h (List.mem_cons_self _ _))]
    rw [ih (fun hm => h (List.mem_cons_of_mem _ hm))]

/-- `splitSlash` splits off a leading slash-free word at its separator. -/
theorem splitSlash_word_append (w rest : List Char) (h : '/' ∉ w) :
    splitSlash (w ++ '/' :: rest) = w :: splitSlash rest := by
  induction w with
  | nil => simp [splitSlash]
  | cons c t ih =>
    rw [List.cons_append, splitSlash]
    rw [if_neg (by rintro rfl; exact h (List.mem_cons_self _ _))]
    rw [ih (fun hm => h (List.mem_cons_of_mem _ hm))]

/-- `splitSlash` inverts `joinSlash` on nonempty lists of slash-free words. -/
theorem splitSlash_joinSlash (ws : List (List Char)) (hne : ws ≠ [])
    (h : ∀ w ∈ ws, '/' ∉ w) : splitSlash (joinSlash ws) = ws := by
  induction ws with
  | nil => exact absurd rfl hne
  | cons w ws ih =>
    rcases ws with _ | ⟨w2, ws⟩
    · exact splitSlash_no_slash w (h w (List.mem_cons_self _ _))
    · have hj : joinSlash (w :: w2 :: ws) = w ++ '/' :: joinSlash (w2 :: ws) := rfl
      rw [hj, splitSlash_word_append _ _ (h w (List.mem_cons_self _ _))]
      rw [ih (by simp) (fun x hx => h x (List.mem_cons_of_mem _ hx))]

/-- The dot-resolution fold is the identity when no segment is a dot
segment (generalized over the accumulator). -/
theorem resolveSegs_aux_no_dots (segs : List (List Char))
    (h : ∀ s ∈ segs, s ≠ ".".toList ∧ s ≠ "..".toList) :
    ∀ acc : List (List Char),
      segs.foldl
        (fun acc seg =>
          if seg = "..".toList then (if 2 <= acc.length then acc.dropLast else acc)
          else if seg = ".".toList then acc
          else acc ++ [seg])
        acc = acc ++ segs := by
  induction segs with
  | nil => intro acc; simp
  | cons s segs ih =>
    intro acc
    have hs := h s (List.mem_cons_self _ _)
    rw [List.foldl_cons, if_neg hs.2, if_neg hs.1,
      ih (fun x hx => h x (List.mem_cons_of_mem _ hx))]
    simp

/-- `resolveSegs` is the identity when no segment is a dot segment. -/
theorem resolveSegs_no_dots (segs : List (List Char))
    (h : ∀ s ∈ segs, s ≠ ".".toList ∧ s ≠ "..".toList) :
    resolveSegs segs = segs := by
  rw [resolveSegs, resolveSegs_aux_no_dots segs h []]
  rfl

/-- `fmTail` keeps every segment when none is empty. -/
theorem fmTail_all_nonempty (l : List (List Char)) (h : ∀ x ∈ l, x ≠ []) :
    fmTail l = l := by
  induction l with
  | nil => rfl
  | cons b t ih =>
    rcases t with _ | ⟨b2, t⟩
    · rfl
    · have hj : fmTail (b :: b2 :: t)
          = if b = [] then fmTail (b2 :: t) else b :: fmTail (b2 :: t) := rfl
      rw [hj, if_neg (h b (List.mem_cons_self _ _)),
        ih (fun x hx => h x (List.mem_cons_of_mem _ hx))]

/-- A character list without a colon has no URL scheme. -/
theorem hasUrlScheme_no_colon (l : List Char) (h : ':' ∉ l) :
    hasUrlScheme l = false := by
  rw [hasUrlScheme]
  have : (l.drop (l.takeWhile schemeChar).length).head? ≠ some ':' := by
    intro hc
    apply h
    have hmem : ':' ∈ l.drop (l.takeWhile schemeChar).length :=
      List.mem_of_mem_head? hc
    exact List.drop_subset _ l hmem
  simp only [Bool.and_eq_false_iff]
  right
  simpa using this

/-- `rstrip('/')` is the identity when the string ends in a slash-free,
nonempty suffix. -/
theorem rstripSlashes_append (l1 l2 : List Char) (hne : l2 ≠ [])
    (h : ∀ c ∈ l2, c ≠ '/') : rstripSlashes (l1 ++ l2) = l1 ++ l2 := by
  rw [rstripSlashes]
  obtain ⟨c, t, ht⟩ := List.exists_cons_of_ne_nil
      (show l2.reverse ≠ [] by simpa using hne)
  have hc : c ∈ l2 := by
    have : c ∈ l2.reverse := ht ▸ List.mem_cons_self c t
    simpa using this
  rw [List.reverse_append, ht, List.cons_append,
    List.dropWhile_cons_of_neg (by simpa using h c hc), ← List.cons_append, ← ht,
    ← List.reverse_append, List.reverse_reverse]

/-- `joinSlash` of a list starting with a nonempty word starts with that
word's head. -/
theorem joinSlash_cons_head (c : Char) (t : List Char) (ws : List (List Char)) :
    ∃ rest, joinSlash ((c :: t) :: ws) = c :: rest := by
  cases ws with
  | nil => exact ⟨t, rfl⟩
  | cons w2 ws => exact ⟨t ++ '/' :: joinSlash (w2 :: ws), rfl⟩

/-- A character list starting with `/` has no URL scheme. -/
theorem hasUrlScheme_slash (l : List Char) : hasUrlScheme ('/' :: l) = false := by
  rw [hasUrlScheme]
  have h1 : schemeChar '/' = false := by decide
  simp [List.takeWhile_cons, h1]

/-- Characters of a slash-joined list of plain segments avoid the URL
delimiters and the colon. -/
theorem mem_joinSlash_plain (ws : List (List Char)) (h : ∀ w ∈ ws, plainSeg w)
    (c : Char) (hc : c ∈ joinSlash ws) : c = '/' ∨ (c ≠ '?' ∧ c ≠ '#' ∧ c ≠ ':') := by
  rcases mem_joinSlash ws c hc with rfl | ⟨w, hw, hcw⟩
  · exact Or.inl rfl
  · have := (h w hw).2.2.2 c hcw
    exact Or.inr ⟨this.2.1, this.2.2.1, this.2.2.2⟩

/-- `urljoin` part of C7, leading-slash case: a plain absolute path is
joined to the origin of the base URL. -/
theorem urljoin_origin_case (scheme : String) (netloc : List Char)
    (bpath : List Char) (hsegs : List (List Char))
    (hs : scheme = "http" ∨ scheme = "https")
    (hnet : ∀ c ∈ netloc, urlDelim c = false)
    (hbp : bpath = [] ∨ bpath.head? = some '/')
    (hh : ∀ w ∈ hsegs, plainSeg w) (hhne : hsegs ≠ []) :
    urljoinModel (mkHttpUrl scheme netloc bpath)
        (String.mk ('/' :: joinSlash hsegs))
      = mkHttpUrl scheme netloc ('/' :: joinSlash hsegs) := by
  obtain ⟨w1, rest, rfl⟩ := List.exists_cons_of_ne_nil hhne
  have hw1 : plainSeg w1 := hh w1 (List.mem_cons_self _ _)
  obtain ⟨c, t, rfl⟩ := List.exists_cons_of_ne_nil hw1.1
  obtain ⟨jrest, hjoin⟩ := joinSlash_cons_head c t rest
  have hcs : c ≠ '/' := ((hh _ (List.mem_cons_self _ _)).2.2.2 c
    (List.mem_cons_self _ _)).1
  have hnomem : ∀ x : Char, x ≠ '/' → (x ≠ '?' ∧ x ≠ '#' ∧ x ≠ ':' → False) →
      x ∉ '/' :: joinSlash ((c :: t) :: rest) := by
    intro x hx1 hx2 hm
    rcases List.mem_cons.1 hm with h | h
    · exact hx1 h
    · rcases mem_joinSlash_plain _ hh x h with h1 | h2
      · exact hx1 h1
      · exact hx2 h2
  have hnohash : '#' ∉ '/' :: joinSlash ((c :: t) :: rest) := by
    apply hnomem _ (by decide)
    intro h
    exact h.2.1 rfl
  have hnoq : '?' ∉ '/' :: joinSlash ((c :: t) :: rest) := by
    apply hnomem _ (by decide)
    intro h
    exact h.1 rfl
  rw [urljoinModel, parseHttpUrl_mkHttpUrl scheme netloc bpath hs hnet hbp]
  dsimp only
  have htl : (String.mk ('/' :: joinSlash ((c :: t) :: rest))).toList
      = '/' :: joinSlash ((c :: t) :: rest) := rfl
  rw [htl, hasUrlScheme_slash]
  rw [if_neg (by simp)]
  have hnn : ("//".toList).isPrefixOf ('/' :: joinSlash ((c :: t) :: rest)) = false := by
    have e : "//".toList = ['/', '/'] := rfl
    rw [e, hjoin]
    simp [List.isPrefixOf, hcs]
    intro hcontra
    exact absurd hcontra.symm hcs
  rw [hnn]
  rw [if_neg (by simp)]
  rw [splitFirst_not_mem '#' _ hnohash]
  dsimp only
  rw [splitFirst_not_mem '?' _ hnoq]
  dsimp only
  rw [if_neg (by simp)]
  have hhead : ('/' :: joinSlash ((c :: t) :: rest)).head? = some '/' := rfl
  rw [if_pos hhead]
  have hsplit : splitSlash ('/' :: joinSlash ((c :: t) :: rest))
      = [] :: ((c :: t) :: rest) := by
    have e1 : splitSlash ('/' :: joinSlash ((c :: t) :: rest))
        = [] :: splitSlash (joinSlash ((c :: t) :: rest)) := by
      simp [splitSlash]
    rw [e1, splitSlash_joinSlash _ (by simp)
      (fun w hw hmem => ((hh w hw).2.2.2 '/' hmem).1 rfl)]
  rw [hsplit]
  have hnodots : ∀ s ∈ ([] : List Char) :: (c :: t) :: rest,
      s ≠ ".".toList ∧ s ≠ "..".toList := by
    intro s hsm
    rcases List.mem_cons.1 hsm with rfl | h
    · exact ⟨by decide, by decide⟩
    · exact ⟨(hh s h).2.1, (hh s h).2.2.1⟩
  rw [resolveSegs_no_dots _ hnodots]
  have hlast : ((([] : List Char) :: (c :: t) :: rest)).getLast?
      = ((c :: t) :: rest).getLast? := List.getLast?_cons_cons
  have hgl : (((c :: t) :: rest)).getLast?
      = some (((c :: t) :: rest).getLast (by simp)) := List.getLast?_eq_getLast _ (by simp)
  have hxmem : ((c :: t) :: rest).getLast (by simp) ∈ (c :: t) :: rest :=
    List.getLast_mem _
  have hxp : plainSeg (((c :: t) :: rest).getLast (by simp)) := hh _ hxmem
  rw [hlast, hgl]
  split
  · rename_i htr
    exfalso
    simp only [Bool.or_eq_true, decide_eq_true_eq, Option.some_inj] at htr
    rcases htr with h | h
    · exact hxp.2.1 h
    · exact hxp.2.2.1 h
  · have hjoin2 : joinSlash (([] : List Char) :: (c :: t) :: rest)
        = '/' :: joinSlash ((c :: t) :: rest) := rfl
    rw [hjoin2]
    rw [if_neg (by simp)]
    simp [mkHttpUrl]

/-- `joinSlash` over a cons with a nonempty tail. -/
theorem joinSlash_cons_of_ne_nil (w : List Char) (ws : List (List Char)) (h : ws ≠ []) :
    joinSlash (w :: ws) = w ++ '/' :: joinSlash ws := by
  cases ws with
  | nil => exact absurd rfl h
  | cons y ys => rfl

/-- `getLast?` of a cons with a nonempty tail. -/
theorem getLast?_cons_of_ne_nil (a : List Char) (ws : List (List Char)) (h : ws ≠ []) :
    (a :: ws).getLast? = ws.getLast? := by
  cases ws with
  | nil => exact absurd rfl h
  | cons y ys => exact List.getLast?_cons_cons

/-- `urljoin` part of C7, relative case: a plain relative path is joined to
the base path of the base URL (the base path with its last segment
dropped). -/
theorem urljoin_relative_case (scheme : String) (netloc : List Char)
    (bsegs hsegs : List (List Char))
    (hs : scheme = "http" ∨ scheme = "https")
    (hnet : ∀ c ∈ netloc, urlDelim c = false)
    (hb : ∀ w ∈ bsegs, plainSeg w) (hbne : bsegs ≠ [])
    (hh : ∀ w ∈ hsegs, plainSeg w) (hhne : hsegs ≠ []) :
    urljoinModel (mkHttpUrl scheme netloc ('/' :: joinSlash bsegs))
        (String.mk (joinSlash hsegs))
      = mkHttpUrl scheme netloc ('/' :: joinSlash (bsegs.dropLast ++ hsegs)) := by
  obtain ⟨w1, rest, rfl⟩ := List.exists_cons_of_ne_nil hhne
  have hw1 : plainSeg w1 := hh w1 (List.mem_cons_self _ _)
  obtain ⟨c, t, rfl⟩ := List.exists_cons_of_ne_nil hw1.1
  obtain ⟨jrest, hjoin⟩ := joinSlash_cons_head c t rest
  have hcchars := (hh _ (List.mem_cons_self _ _)).2.2.2 c (List.mem_cons_self _ _)
  have hnomem : ∀ x : Char, x ≠ '/' → (x ≠ '?' ∧ x ≠ '#' ∧ x ≠ ':' → False) →
      x ∉ joinSlash ((c :: t) :: rest) := by
    intro x hx1 hx2 hm
    rcases mem_joinSlash_plain _ hh x hm with h1 | h2
    · exact hx1 h1
    · exact hx2 h2
  have hnohash : '#' ∉ joinSlash ((c :: t) :: rest) := by
    apply hnomem _ (by decide)
    intro h
    exact h.2.1 rfl
  have hnoq : '?' ∉ joinSlash ((c :: t) :: rest) := by
    apply hnomem _ (by decide)
    intro h
    exact h.1 rfl
  have hnocolon : ':' ∉ joinSlash ((c :: t) :: rest) := by
    apply hnomem _ (by decide)
    intro h
    exact h.2.2 rfl
  rw [urljoinModel,
    parseHttpUrl_mkHttpUrl scheme netloc _ hs hnet
      (Or.inr (rfl : ('/' :: joinSlash bsegs).head? = some '/'))]
  dsimp only
  have htl : (String.mk (joinSlash ((c :: t) :: rest))).toList
      = joinSlash ((c :: t) :: rest) := rfl
  rw [htl, hasUrlScheme_no_colon _ hnocolon]
  rw [if_neg (by simp)]
  have hnn : ("//".toList).isPrefixOf (joinSlash ((c :: t) :: rest)) = false := by
    have e : "//".toList = ['/', '/'] := rfl
    rw [e, hjoin]
    simp [List.isPrefixOf]
    intro hcontra
    exact absurd hcontra.symm hcchars.1
  rw [hnn]
  rw [if_neg (by simp)]
  rw [splitFirst_not_mem '#' _ hnohash]
  dsimp only
  rw [splitFirst_not_mem '?' _ hnoq]
  dsimp only
  have hbnomem : ∀ x : Char, x ≠ '/' → (x ≠ '?' ∧ x ≠ '#' ∧ x ≠ ':' → False) →
      x ∉ '/' :: joinSlash bsegs := by
    intro x hx1 hx2 hm
    rcases List.mem_cons.1 hm with h | h
    · exact hx1 h
    · rcases mem_joinSlash_plain _ hb x h with h1 | h2
      · exact hx1 h1
      · exact hx2 h2
  have hbnohash : '#' ∉ '/' :: joinSlash bsegs := by
    apply hbnomem _ (by decide)
    intro h
    exact h.2.1 rfl
  have hbnoq : '?' ∉ '/' :: joinSlash bsegs := by
    apply hbnomem _ (by decide)
    intro h
    exact h.1 rfl
  rw [splitFirst_not_mem '#' _ hbnohash]
  dsimp only
  rw [splitFirst_not_mem '?' _ hbnoq]
  dsimp only
  rw [if_neg (show ¬joinSlash ((c :: t) :: rest) = [] by rw [hjoin]; simp)]
  rw [if_neg (show ¬(joinSlash ((c :: t) :: rest)).head? = some '/' by
    rw [hjoin]
    simp
    intro hcontra
    exact absurd hcontra hcchars.1)]
  have hbsplit : splitSlash ('/' :: joinSlash bsegs) = [] :: bsegs := by
    have e1 : splitSlash ('/' :: joinSlash bsegs)
        = [] :: splitSlash (joinSlash bsegs) := by
      simp [splitSlash]
    rw [e1, splitSlash_joinSlash _ hbne
      (fun w hw hmem => ((hb w hw).2.2.2 '/' hmem).1 rfl)]
  rw [hbsplit]
  obtain ⟨b1, brest, rfl⟩ := List.exists_cons_of_ne_nil hbne
  have hbgl : ((b1 :: brest)).getLast?
      = some ((b1 :: brest).getLast (by simp)) := List.getLast?_eq_getLast _ (by simp)
  have hbmem : (b1 :: brest).getLast (by simp) ∈ b1 :: brest := List.getLast_mem _
  rw [if_neg (show ¬(([] : List Char) :: b1 :: brest).getLast? = some [] by
    rw [List.getLast?_cons_cons, hbgl]
    simp only [Option.some_inj]
    intro hcontra
    exact (hb _ hbmem).1 hcontra)]
  rw [List.dropLast_cons_of_ne_nil (by simp)]
  have hres : splitSlash (joinSlash ((c :: t) :: rest)) = (c :: t) :: rest :=
    splitSlash_joinSlash _ (by simp)
      (fun w hw hmem => ((hh w hw).2.2.2 '/' hmem).1 rfl)
  rw [hres]
  have hmerge : (([] : List Char) :: (b1 :: brest).dropLast) ++ (c :: t) :: rest
      = [] :: ((b1 :: brest).dropLast ++ (c :: t) :: rest) := rfl
  rw [hmerge]
  have hfem : filterEmptyMiddle ([] :: ((b1 :: brest).dropLast ++ (c :: t) :: rest))
      = [] :: fmTail ((b1 :: brest).dropLast ++ (c :: t) :: rest) := rfl
  rw [hfem]
  have hallne : ∀ x ∈ (b1 :: brest).dropLast ++ (c :: t) :: rest, x ≠ [] := by
    intro x hx
    rcases List.mem_append.1 hx with h | h
    · exact (hb x (List.dropLast_subset _ h)).1
    · exact (hh x h).1
  rw [fmTail_all_nonempty _ hallne]
  have hnodots : ∀ s ∈ ([] : List Char) ::
      ((b1 :: brest).dropLast ++ (c :: t) :: rest),
      s ≠ ".".toList ∧ s ≠ "..".toList := by
    intro s hsm
    rcases List.mem_cons.1 hsm with rfl | h
    · exact ⟨by decide, by decide⟩
    · rcases List.mem_append.1 h with h1 | h1
      · have := hb s (List.dropLast_subset _ h1)
        exact ⟨this.2.1, this.2.2.1⟩
      · exact ⟨(hh s h1).2.1, (hh s h1).2.2.1⟩
  rw [resolveSegs_no_dots _ hnodots]
  have hLne : (b1 :: brest).dropLast ++ (c :: t) :: rest ≠ [] := by simp
  have hgl2 : ((b1 :: brest).dropLast ++ (c :: t) :: rest).getLast?
      = some (((b1 :: brest).dropLast ++ (c :: t) :: rest).getLast hLne) :=
    List.getLast?_eq_getLast _ _
  have hxmem2 : ((b1 :: brest).dropLast ++ (c :: t) :: rest).getLast hLne
      ∈ (b1 :: brest).dropLast ++ (c :: t) :: rest := List.getLast_mem _
  have hxp2 : ((b1 :: brest).dropLast ++ (c :: t) :: rest).getLast hLne ≠ ".".toList ∧
      ((b1 :: brest).dropLast ++ (c :: t) :: rest).getLast hLne ≠ "..".toList :=
    hnodots _ (List.mem_cons_of_mem _ hxmem2)
  rw [getLast?_cons_of_ne_nil _ _ hLne, hgl2]
  split
  · rename_i htr
    exfalso
    simp only [Bool.or_eq_true, decide_eq_true_eq, Option.some_inj] at htr
    rcases htr with h | h
    · exact hxp2.1 h
    · exact hxp2.2 h
  · rw [joinSlash_cons_of_ne_nil _ _ hLne]
    rw [if_neg (by simp)]
    simp [mkHttpUrl]

/-- `run_scout` part of C7, leading-slash case: with an origin-only
configured base, an absolute path is joined to the origin. -/
theorem scout_origin_case (scheme : String) (netloc : List Char)
    (hsegs : List (List Char))
    (_hs : scheme = "http" ∨ scheme = "https")
    (hnne : netloc ≠ []) (hnet : ∀ c ∈ netloc, urlDelim c = false)
    (_hh : ∀ w ∈ hsegs, plainSeg w) (_hhne : hsegs ≠ []) :
    scoutResolve (mkHttpUrl scheme netloc [])
        (String.mk ('/' :: joinSlash hsegs))
      = mkHttpUrl scheme netloc ('/' :: joinSlash hsegs) := by
  rw [scoutResolve]
  have h1 : "http".toList.isPrefixOf
      ((String.mk ('/' :: joinSlash hsegs)).toList) = false := by
    have e : "http".toList = ['h', 't', 't', 'p'] := rfl
    have e2 : (String.mk ('/' :: joinSlash hsegs)).toList
        = '/' :: joinSlash hsegs := rfl
    rw [e, e2]
    simp [List.isPrefixOf]
  rw [h1]
  rw [if_neg (by simp)]
  have hstrip : rstripSlashes ((mkHttpUrl scheme netloc []).toList)
      = scheme.toList ++ "://".toList ++ netloc := by
    have e : (mkHttpUrl scheme netloc []).toList
        = (scheme.toList ++ "://".toList) ++ netloc := by
      simp [mkHttpUrl]
    rw [e, rstripSlashes_append _ _ hnne
      (fun x hx => by have := hnet x hx; simp [urlDelim] at this; exact this.1.1)]
  rw [hstrip]
  have h2 : "/".toList.isPrefixOf
      ((String.mk ('/' :: joinSlash hsegs)).toList) = true := by
    have e : "/".toList = ['/'] := rfl
    have e2 : (String.mk ('/' :: joinSlash hsegs)).toList
        = '/' :: joinSlash hsegs := rfl
    rw [e, e2]
    simp [List.isPrefixOf]
  rw [h2]
  rw [if_pos rfl]
  have e2 : (String.mk ('/' :: joinSlash hsegs)).toList = '/' :: joinSlash hsegs := rfl
  rw [e2]
  simp [mkHttpUrl]

/-- `run_scout` part of C7, relative case: with an origin-only configured
base, a relative path *not starting with the literal `"http"`* is joined
to the base (root) path. -/
theorem scout_relative_case (scheme : String) (netloc : List Char)
    (hsegs : List (List Char))
    (_hs : scheme = "http" ∨ scheme = "https")
    (hnne : netloc ≠ []) (hnet : ∀ c ∈ netloc, urlDelim c = false)
    (hh : ∀ w ∈ hsegs, plainSeg w) (hhne : hsegs ≠ [])
    (hnothttp : "http".toList.isPrefixOf (joinSlash hsegs) = false) :
    scoutResolve (mkHttpUrl scheme netloc [])
        (String.mk (joinSlash hsegs))
      = mkHttpUrl scheme netloc ('/' :: joinSlash hsegs) := by
  obtain ⟨w1, rest, rfl⟩ := List.exists_cons_of_ne_nil hhne
  have hw1 : plainSeg w1 := hh w1 (List.mem_cons_self _ _)
  obtain ⟨c, t, rfl⟩ := List.exists_cons_of_ne_nil hw1.1
  obtain ⟨jrest, hjoin⟩ := joinSlash_cons_head c t rest
  have hcs : c ≠ '/' := ((hh _ (List.mem_cons_self _ _)).2.2.2 c
    (List.mem_cons_self _ _)).1
  rw [scoutResolve]
  have e2 : (String.mk (joinSlash ((c :: t) :: rest))).toList
      = joinSlash ((c :: t) :: rest) := rfl
  rw [e2, hnothttp]
  rw [if_neg (by simp)]
  have hstrip : rstripSlashes ((mkHttpUrl scheme netloc []).toList)
      = scheme.toList ++ "://".toList ++ netloc := by
    have e : (mkHttpUrl scheme netloc []).toList
        = (scheme.toList ++ "://".toList) ++ netloc := by
      simp [mkHttpUrl]
    rw [e, rstripSlashes_append _ _ hnne
      (fun x hx => by have := hnet x hx; simp [urlDelim] at this; exact this.1.1)]
  rw [hstrip]
  have h2 : "/".toList.isPrefixOf (joinSlash ((c :: t) :: rest)) = false := by
    have e : "/".toList = ['/'] := rfl
    rw [e, hjoin]
    simp [List.isPrefixOf]
    intro hcontra
    exact absurd hcontra.symm hcs
  rw [h2]
  rw [if_neg (by simp)]
  simp [mkHttpUrl]

/-- **C7, counterexample**: the claim fails for agent.py's `run_scout`.  The
relative path `httpdocs/file.pdf` has no leading `/`, so by the claim it
should be joined to the configured base; `run_scout` instead treats every
href starting with the literal `"http"` as already absolute and returns
it unchanged. -/
theorem href_resolution_counterexample :
    scoutResolve "https://x.gov" "httpdocs/file.pdf" = "httpdocs/file.pdf" ∧
      ("httpdocs/file.pdf" : String) ≠ "https://x.gov/httpdocs/file.pdf" :=
  ⟨rfl, by decide⟩

/-- **C7, amended**: for audit.py's harvester (`urljoin`), a plain path
starting with `/` (not `//`, no dot segments, no query/fragment) resolves
to origin + path, and a plain relative path resolves to the base path
(the base URL's path with its last segment dropped) + path; for agent.py's
`run_scout`, whose configured bases are all origin-only, the same two
rules hold *except* that any href starting with the literal `"http"` is
returned unchanged (the counterexample), so its relative rule carries that
extra proviso. -/
theorem href_resolution_amended (scheme : String) (netloc : List Char)
    (bsegs hsegs : List (List Char))
    (hs : scheme = "http" ∨ scheme = "https")
    (hnne : netloc ≠ []) (hnet : ∀ c ∈ netloc, urlDelim c = false)
    (hb : ∀ w ∈ bsegs, plainSeg w) (hbne : bsegs ≠ [])
    (hh : ∀ w ∈ hsegs, plainSeg w) (hhne : hsegs ≠ []) :
    urljoinModel (mkHttpUrl scheme netloc ('/' :: joinSlash bsegs))
        (String.mk ('/' :: joinSlash hsegs))
      = mkHttpUrl scheme netloc ('/' :: joinSlash hsegs) ∧
    urljoinModel (mkHttpUrl scheme netloc ('/' :: joinSlash bsegs))
        (String.mk (joinSlash hsegs))
      = mkHttpUrl scheme netloc ('/' :: joinSlash (bsegs.dropLast ++ hsegs)) ∧
    scoutResolve (mkHttpUrl scheme netloc []) (String.mk ('/' :: joinSlash hsegs))
      = mkHttpUrl scheme netloc ('/' :: joinSlash hsegs) ∧
    ("http".toList.isPrefixOf (joinSlash hsegs) = false →
      scoutResolve (mkHttpUrl scheme netloc []) (String.mk (joinSlash hsegs))
        = mkHttpUrl scheme netloc ('/' :: joinSlash hsegs)) :=
  ⟨urljoin_origin_case scheme netloc _ hsegs hs hnet
      (Or.inr (rfl : ('/' :: joinSlash bsegs).head? = some '/')) hh hhne,
   urljoin_relative_case scheme netloc bsegs hsegs hs hnet hb hbne hh hhne,
   scout_origin_case scheme netloc hsegs hs hnne hnet hh hhne,
   fun hx => scout_relative_case scheme netloc hsegs hs hnne hnet hh hhne hx⟩

/-- Witness for the amended C7: base `https://x/a/b`, relative href `c` –
the result drops the base path's last segment. -/
theorem href_resolution_amended_witness :
    (∀ w ∈ [['c']], plainSeg w) ∧
      urljoinModel (mkHttpUrl "https" ['x'] ('/' :: joinSlash [['a'], ['b']]))
          (String.mk (joinSlash [['c']]))
        = mkHttpUrl "https" ['x'] ('/' :: joinSlash ([['a'], ['b']].dropLast ++ [['c']])) :=
  ⟨by decide,
   (href_resolution_amended "https" ['x'] [['a'], ['b']] [['c']]
      (Or.inr rfl) (by decide) (by decide) (by decide) (by decide)
      (by decide) (by decide)).2.1⟩
